import Mathlib

/-!
# mcdb_makefn: temp-file creation and atomic installation

A shallow embedding of `src/mcdb_makefn.c` (`mcdb_makefn_start`,
`mcdb_makefn_finish`, `mcdb_makefn_cleanup`) over an explicit model of the
process environment: `errno`, the process umask, a flat name space of paths,
an inode table, the open-descriptor table, the heap blocks handed out by the
injected allocator, and the chronological trace of library and system calls.

Every call into the environment takes an explicit *choice* argument that
decides whether the environment makes the call fail (and with which error
code) or, for calls that pick fresh resources, which resources it picks.
Quantifying a theorem over the choices quantifies it over every combination
of outcomes of the underlying calls.
-/

namespace Mcdb

/-! ## Data model -/

/-- A `char`; NUL is `0`. -/
abbrev Byte := Nat

/-- The contents of a C string, without its terminating NUL. -/
abbrev Path := List Byte

/-- A non-NULL `char *`: a heap block and a byte offset into it.  `NULL` is
`none : Option Ptr`. -/
structure Ptr where
  block : Nat
  off : Nat
  deriving DecidableEq

/-- A call made by the code, with its arguments.  Function pointers are
represented by the number that identifies the function. -/
inductive Call where
  | stat (path : Path)
  | malloc (fn : Nat) (size : Nat) (result : Option Ptr)
  | free (fn : Nat) (p : Option Ptr)
  | memcpy (dst : Ptr) (bytes : List Byte)
  | umask (mask : Nat)
  | mkstemp (template : Option Ptr)
  | fchmod (fd : Int) (mode : Nat)
  | fdatasync (fd : Int)
  | close (fd : Int)
  | rename (old new : Option Ptr)
  | unlink (path : Option Ptr)
  deriving DecidableEq

/-- One entry of the call trace: the call and the `int` it returned (`0` for
the `void` calls, the previous mask for `umask`). -/
structure Event where
  call : Call
  ret : Int
  deriving DecidableEq

/-- The process environment. -/
structure World where
  /-- The value of `errno`. -/
  errno : Int
  /-- The process file-creation mask. -/
  umask : Nat
  /-- Directory entries: path to inode number. -/
  names : Path → Option Nat
  /-- Inode table: inode number to `st_mode`. -/
  inodes : Nat → Option Nat
  /-- Open descriptors: descriptor to inode number. -/
  fds : Nat → Option Nat
  /-- Live heap blocks and their bytes. -/
  heap : Nat → Option (List Byte)
  /-- Calls made so far, oldest first. -/
  trace : List Event

/-- Modelled from the spec: `struct mcdb_make` of `mcdb_make.h`, which is not
among the sources; the spec's Make-Context.  The fields are those
`mcdb_makefn.c` reads or writes: `head[0]`, the temp path `fntmp`, the final
path `fname`, the descriptor `fd`, the mode `st_mode` and the injected
allocator pair. -/
structure mcdb_make where
  head0 : Option Ptr
  fntmp : Option Ptr
  fname : Option Ptr
  fd : Int
  st_mode : Nat
  fn_malloc : Nat
  fn_free : Nat
  deriving DecidableEq

/-- Build configuration: the width of `size_t` and whether the
`__GLIBC__ <= 2.6` preprocessor branches (the `umask` calls around `mkstemp`)
are compiled in. -/
structure Config where
  size_bits : Nat
  old_glibc : Bool

/-! ## Constants -/

def ENOENT : Int := 2
def EBADF : Int := 9
def EFAULT : Int := 14
def EEXIST : Int := 17
def EINVAL : Int := 22
def EXIT_SUCCESS : Int := 0

def S_IRUSR : Nat := 0o400
def S_IFMT : Nat := 0o170000
def S_IFREG : Nat := 0o100000
def S_IFDIR : Nat := 0o040000

def S_ISGID : Nat := 0o2000

/-- The permission part of a mode, as `fchmod` applies it. -/
def S_PERM : Nat := 0o7777

/-- The permission bits a successful `fchmod(fd, mode)` installs.  When the
caller is not privileged and not a member of the file's group the kernel
turns the set-group-ID bit off and still returns 0; `clears_sgid` tells
whether the environment is in that situation. -/
def applied_perm (mode : Nat) (clears_sgid : Bool) : Nat :=
  if clears_sgid then (mode &&& S_PERM) &&& (S_PERM ^^^ S_ISGID) else mode &&& S_PERM

def S_ISREG (mode : Nat) : Bool := (mode &&& S_IFMT) == S_IFREG

/-- The bytes of the string literal `".XXXXXX"`, terminating NUL included. -/
def suffix_template : List Byte := [46, 88, 88, 88, 88, 88, 88, 0]

/-- The six placeholder characters `mkstemp` requires at the end. -/
def placeholder : List Byte := [88, 88, 88, 88, 88, 88]

/-! ## The environment -/

def World.ok (w : World) (c : Call) (r : Int) : World :=
  { w with trace := w.trace ++ [⟨c, r⟩] }

def World.fail (w : World) (c : Call) (e : Int) : World :=
  { w with errno := e, trace := w.trace ++ [⟨c, -1⟩] }

/-- `strlen` over the bytes found at an address. -/
def strlen (mem : List Byte) : Nat := (mem.takeWhile (fun b => b != 0)).length

/-- The C string a pointer designates in the heap, when the pointer is valid
and a NUL is found inside its block. -/
def readCStr (heap : Nat → Option (List Byte)) (p : Option Ptr) : Option Path :=
  match p with
  | none => none
  | some q =>
    match heap q.block with
    | none => none
    | some bytes =>
      if 0 ∈ bytes.drop q.off then
        some ((bytes.drop q.off).take (strlen (bytes.drop q.off)))
      else none

/-- The inode an `int` descriptor refers to. -/
def lookupFd (w : World) (fd : Int) : Option Nat :=
  if fd < 0 then none else w.fds fd.toNat

/-- `stat(path, &st)`: returns the return value and the `st_mode` written.
`inj` makes the call fail with that error code; otherwise it fails with
`ENOENT` exactly when nothing exists at `path`. -/
def sys_stat (path : Path) (inj : Option Int) (w : World) : Int × Nat × World :=
  match inj with
  | some e => (-1, 0, w.fail (.stat path) e)
  | none =>
    match (w.names path).bind w.inodes with
    | none => (-1, 0, w.fail (.stat path) ENOENT)
    | some mode => (0, mode, w.ok (.stat path) 0)

/-- A call of the injected allocator `fn`.  `choice` is the block it hands
out (`none`: it returns `NULL`); a block that is already live is not handed
out again.  `e` is the error code it leaves in `errno`, if it sets one, and
`junk` the uninitialised contents of the new block. -/
def call_malloc (fn : Nat) (size : Nat) (choice : Option Nat) (e : Option Int)
    (junk : Nat → Byte) (w : World) : Option Ptr × World :=
  match choice with
  | none =>
    (none, { w with errno := e.getD w.errno,
                    trace := w.trace ++ [⟨.malloc fn size none, -1⟩] })
  | some b =>
    if w.heap b = none then
      (some ⟨b, 0⟩,
        { w with errno := e.getD w.errno,
                 heap := Function.update w.heap b (some ((List.range size).map junk)),
                 trace := w.trace ++ [⟨.malloc fn size (some ⟨b, 0⟩), 0⟩] })
    else
      (none, { w with errno := e.getD w.errno,
                      trace := w.trace ++ [⟨.malloc fn size none, -1⟩] })

/-- A call of the injected release function `fn` on `p`.  `e` is the error
code it leaves in `errno`, if it sets one. -/
def call_free (fn : Nat) (p : Option Ptr) (e : Option Int) (w : World) : World :=
  { w with errno := e.getD w.errno,
           heap := match p with
             | none => w.heap
             | some q => if q.off = 0 then Function.update w.heap q.block none else w.heap,
           trace := w.trace ++ [⟨.free fn p, 0⟩] }

/-- `memcpy(dst, src, n)` into a heap block; `none` is undefined behaviour
(a destination range outside the block, or a source shorter than `n`). -/
def memcpy (dst : Ptr) (src : List Byte) (n : Nat) (w : World) : Option World :=
  match w.heap dst.block with
  | none => none
  | some buf =>
    if dst.off + n ≤ buf.length ∧ n ≤ src.length then
      some { w with
        heap := Function.update w.heap dst.block
          (some (buf.take dst.off ++ src.take n ++ buf.drop (dst.off + n))),
        trace := w.trace ++ [⟨.memcpy dst (src.take n), 0⟩] }
    else none

/-- `umask(mask)`: installs the mask and returns the previous one. -/
def sys_umask (mask : Nat) (w : World) : Nat × World :=
  (w.umask, { w with umask := mask, trace := w.trace ++ [⟨.umask mask, w.umask⟩] })

/-- The mode `mkstemp` gives the file it creates. -/
def created_mode (cfg : Config) (umask : Nat) : Nat :=
  S_IFREG ||| ((if cfg.old_glibc then 0o666 else 0o600) &&& (0o777 ^^^ (umask &&& 0o777)))

/-- What the environment decides for one `mkstemp` call: failure with an
error code, or the descriptor, the inode and the six characters it picks. -/
inductive MkstempChoice where
  | fail (e : Int)
  | ok (fd ino : Nat) (sfx : List Byte)

/-- `mkstemp(template)`.  The template must be a C string ending in
`XXXXXX`.  A successful call replaces the placeholder in place, creates a
regular file under the resulting name and opens it.  A choice that is not
available (a name that exists, a descriptor or inode in use, a malformed
suffix) is a failure of the call. -/
def sys_mkstemp (cfg : Config) (template : Option Ptr) (choice : MkstempChoice)
    (w : World) : Int × World :=
  match template, readCStr w.heap template with
  | some q, some t =>
    if t.drop (t.length - 6) ≠ placeholder then (-1, w.fail (.mkstemp template) EINVAL)
    else
      match choice with
      | .fail e => (-1, w.fail (.mkstemp template) e)
      | .ok fd ino sfx =>
        if sfx.length = 6 ∧ 0 ∉ sfx ∧ w.names (t.take (t.length - 6) ++ sfx) = none
            ∧ w.fds fd = none ∧ w.inodes ino = none then
          ((fd : Int),
            { w with
              heap := Function.update w.heap q.block
                ((w.heap q.block).map fun buf =>
                  buf.take (q.off + (t.length - 6)) ++ sfx
                    ++ buf.drop (q.off + (t.length - 6) + 6)),
              names := Function.update w.names (t.take (t.length - 6) ++ sfx) (some ino),
              inodes := Function.update w.inodes ino
                (some (created_mode cfg w.umask)),
              fds := Function.update w.fds fd (some ino),
              trace := w.trace ++ [⟨.mkstemp template, (fd : Int)⟩] })
        else (-1, w.fail (.mkstemp template) EEXIST)
  | _, _ => (-1, w.fail (.mkstemp template) EFAULT)

/-- `fchmod(fd, mode)`: `EBADF` on a descriptor that is not open; otherwise
`inj` decides failure; on success the permission bits of the inode are
replaced by `applied_perm mode clears_sgid` and its file type is kept. -/
def sys_fchmod (fd : Int) (mode : Nat) (inj : Option Int) (clears_sgid : Bool)
    (w : World) : Int × World :=
  match lookupFd w fd with
  | none => (-1, w.fail (.fchmod fd mode) EBADF)
  | some ino =>
    match inj with
    | some e => (-1, w.fail (.fchmod fd mode) e)
    | none =>
      (0, { w with
        inodes := Function.update w.inodes ino
          ((w.inodes ino).map fun old => (old &&& S_IFMT) ||| applied_perm mode clears_sgid),
        trace := w.trace ++ [⟨.fchmod fd mode, 0⟩] })

/-- `fdatasync(fd)`: `EBADF` on a descriptor that is not open; otherwise
`inj` decides failure.  Durability is not observable in the model. -/
def sys_fdatasync (fd : Int) (inj : Option Int) (w : World) : Int × World :=
  match lookupFd w fd with
  | none => (-1, w.fail (.fdatasync fd) EBADF)
  | some _ =>
    match inj with
    | some e => (-1, w.fail (.fdatasync fd) e)
    | none => (0, w.ok (.fdatasync fd) 0)

/-- Modelled from the spec: `nointr_close` of `nointr.h`, which is not among
the sources; the spec's "Close the descriptor".  `EBADF` on a descriptor
that is not open; otherwise `inj` decides failure, and a failed close leaves
the descriptor in the table. -/
def nointr_close (fd : Int) (inj : Option Int) (w : World) : Int × World :=
  match lookupFd w fd with
  | none => (-1, w.fail (.close fd) EBADF)
  | some _ =>
    match inj with
    | some e => (-1, w.fail (.close fd) e)
    | none =>
      (0, { w with fds := Function.update w.fds fd.toNat none,
                   trace := w.trace ++ [⟨.close fd, 0⟩] })

/-- `rename(old, new)`: `EFAULT` on a pointer that designates no string,
`ENOENT` when nothing exists under `old`; otherwise `inj` decides failure.
On success the entry `new` refers to the file `old` referred to and `old` is
gone, except that nothing changes when both already refer to the same
file. -/
def sys_rename (old new : Option Ptr) (inj : Option Int) (w : World) : Int × World :=
  match readCStr w.heap old, readCStr w.heap new with
  | some o, some n =>
    match w.names o with
    | none => (-1, w.fail (.rename old new) ENOENT)
    | some i =>
      match inj with
      | some e => (-1, w.fail (.rename old new) e)
      | none =>
        if w.names n = some i then (0, w.ok (.rename old new) 0)
        else
          (0, { w with
            names := Function.update (Function.update w.names n (some i)) o none,
            trace := w.trace ++ [⟨.rename old new, 0⟩] })
  | _, _ => (-1, w.fail (.rename old new) EFAULT)

/-- `unlink(path)`: `EFAULT` on a pointer that designates no string,
`ENOENT` when nothing exists under the name; otherwise `inj` decides
failure.  On success the name is gone. -/
def sys_unlink (path : Option Ptr) (inj : Option Int) (w : World) : Int × World :=
  match readCStr w.heap path with
  | none => (-1, w.fail (.unlink path) EFAULT)
  | some p =>
    match w.names p with
    | none => (-1, w.fail (.unlink path) ENOENT)
    | some _ =>
      match inj with
      | some e => (-1, w.fail (.unlink path) e)
      | none =>
        (0, { w with names := Function.update w.names p none,
                     trace := w.trace ++ [⟨.unlink path, 0⟩] })

/-! ## The three operations -/

/-- The environment's choices during one `mcdb_makefn_start`. -/
structure StartChoices where
  stat : Option Int
  malloc : Option Nat
  malloc_errno : Option Int
  junk : Nat → Byte
  mkstemp : MkstempChoice
  free_errno : Option Int

/-- The environment's choices during one `mcdb_makefn_finish`. -/
structure FinishChoices where
  fchmod : Option Int
  fdatasync : Option Int
  close : Option Int
  rename : Option Int
  /-- Whether a successful `fchmod` turns the set-group-ID bit off. -/
  fchmod_clears_sgid : Bool

/-- The environment's choices during one `mcdb_makefn_cleanup`. -/
structure CleanupChoices where
  unlink : Option Int
  close : Option Int
  free_errno : Option Int

/-- The size `(len<<1) + 9` as computed in `size_t`. -/
def alloc_size (cfg : Config) (len : Nat) : Nat :=
  (((len <<< 1) % 2 ^ cfg.size_bits) + 9) % 2 ^ cfg.size_bits

/-- Lines 82 to 113 of `mcdb_makefn_start`: allocation of the path buffer,
the three copies, temp-file creation.  `cstr` are the bytes at `fname`,
`len` its `strlen`, `st_mode` the local `st.st_mode`.  `none` is undefined
behaviour. -/
def mcdb_makefn_start_create (cfg : Config) (m : mcdb_make) (cstr : List Byte)
    (len : Nat) (st_mode : Nat) (fn_malloc fn_free : Nat) (o : StartChoices)
    (w : World) : Option (Int × mcdb_make × World) :=
  let a := call_malloc fn_malloc (alloc_size cfg len) o.malloc o.malloc_errno o.junk w
  match a.1 with
  | none => some (-1, m, a.2)
  | some fntmp =>
    (memcpy fntmp cstr len a.2).bind fun w1 =>
    (memcpy ⟨fntmp.block, fntmp.off + len⟩ suffix_template 8 w1).bind fun w2 =>
    (memcpy ⟨fntmp.block, fntmp.off + len + 8⟩ cstr (len + 1) w2).bind fun w3 =>
    let m1 := { m with st_mode := st_mode, fn_malloc := fn_malloc, fn_free := fn_free }
    let u := if cfg.old_glibc then sys_umask 0o077 w3 else (st_mode, w3)
    let k := sys_mkstemp cfg (some fntmp) o.mkstemp u.2
    let m2 := { m1 with fd := k.1 }
    let w4 := if cfg.old_glibc then (sys_umask u.1 k.2).2 else k.2
    if k.1 ≠ -1 then
      some (EXIT_SUCCESS,
        { m2 with fntmp := some fntmp,
                  fname := some ⟨fntmp.block, fntmp.off + len + 8⟩ }, w4)
    else
      some (-1, m2, call_free fn_free (some fntmp) o.free_errno w4)

/-- `mcdb_makefn_start(m, fname, fn_malloc, fn_free)`.  `fname` are the bytes
at the argument pointer; the terminating NUL follows them. -/
def mcdb_makefn_start (cfg : Config) (m : mcdb_make) (fname : List Byte)
    (fn_malloc fn_free : Nat) (o : StartChoices) (w : World) :
    Option (Int × mcdb_make × World) :=
  let cstr := fname ++ [0]
  let len := strlen cstr
  let m0 := { m with head0 := none, fntmp := none, fd := -1 }
  let s := sys_stat (cstr.take len) o.stat w
  if s.1 ≠ 0 then
    if s.2.2.errno ≠ ENOENT then some (-1, m0, s.2.2)
    else mcdb_makefn_start_create cfg m0 cstr len S_IRUSR fn_malloc fn_free o s.2.2
  else if !S_ISREG s.2.1 then some (-1, m0, { s.2.2 with errno := EINVAL })
  else mcdb_makefn_start_create cfg m0 cstr len s.2.1 fn_malloc fn_free o s.2.2

/-- `mcdb_makefn_finish(m, datasync)`. -/
def mcdb_makefn_finish (m : mcdb_make) (datasync : Bool) (o : FinishChoices)
    (w : World) : Int × mcdb_make × World :=
  let c := sys_fchmod m.fd m.st_mode o.fchmod o.fchmod_clears_sgid w
  if c.1 ≠ 0 then (-1, m, c.2)
  else
    let d := if datasync then sys_fdatasync m.fd o.fdatasync c.2 else (0, c.2)
    if d.1 ≠ 0 then (-1, m, d.2)
    else
      let cl := nointr_close m.fd o.close d.2
      if cl.1 ≠ 0 then (-1, m, cl.2)
      else
        let m1 := { m with fd := -2 }
        let r := sys_rename m1.fntmp m1.fname o.rename cl.2
        if r.1 ≠ 0 then (-1, m1, r.2)
        else (EXIT_SUCCESS, { m1 with fd := -1 }, r.2)

/-- `mcdb_makefn_cleanup(m)`. -/
def mcdb_makefn_cleanup (m : mcdb_make) (o : CleanupChoices) (w : World) :
    Int × mcdb_make × World :=
  let errsave := w.errno
  let s1 : mcdb_make × World :=
    if m.fd ≠ -1 then
      let u := sys_unlink m.fntmp o.unlink w
      let c := if m.fd ≥ 0 then (nointr_close m.fd o.close u.2).2 else u.2
      ({ m with fd := -1 }, c)
    else (m, w)
  let s2 : mcdb_make × World :=
    if s1.1.fntmp ≠ none then
      ({ s1.1 with fntmp := none },
        call_free s1.1.fn_free s1.1.fntmp o.free_errno s1.2)
    else s1
  let w3 := if errsave ≠ 0 then { s2.2 with errno := errsave } else s2.2
  (-1, s2.1, w3)

/-- The string a `fname` argument designates: the bytes before the first NUL. -/
def c_string (fname : List Byte) : Path := (fname ++ [0]).takeWhile (fun b => b != 0)

/-- The three `memcpy` calls of `mcdb_makefn_start` for path `P` into block
`b`, as trace entries. -/
def copy_events (b : Nat) (P : Path) : List Event :=
  [⟨.memcpy ⟨b, 0⟩ P, 0⟩, ⟨.memcpy ⟨b, P.length⟩ suffix_template, 0⟩,
    ⟨.memcpy ⟨b, P.length + 8⟩ (P ++ [0]), 0⟩]

/-- The trace entry of the `umask` call before `mkstemp`, when compiled in. -/
def umask_before (cfg : Config) (mask : Nat) : List Event :=
  if cfg.old_glibc then [⟨.umask 0o077, mask⟩] else []

/-- The trace entry of the `umask` call after `mkstemp`, when compiled in. -/
def umask_after (cfg : Config) (mask : Nat) : List Event :=
  if cfg.old_glibc then [⟨.umask mask, 0o077⟩] else []

/-- Calls of the injected allocator or release function. -/
def Event.is_heap_call (e : Event) : Bool :=
  match e.call with
  | .malloc _ _ _ => true
  | .free _ _ => true
  | _ => false

/-- Calls of `unlink`. -/
def Event.is_unlink (e : Event) : Bool :=
  match e.call with
  | .unlink _ => true
  | _ => false

/-- Calls of `memcpy`. -/
def Event.is_memcpy (e : Event) : Bool :=
  match e.call with
  | .memcpy _ _ => true
  | _ => false

/-- The byte writes of copying `bytes` to offset `off` of block `b`: the
address and the value of each byte written, in order. -/
def writes_from (b off : Nat) : List Byte → List (Ptr × Byte)
  | [] => []
  | x :: t => (⟨b, off⟩, x) :: writes_from b (off + 1) t

/-- The byte writes a trace entry stands for: those of a `memcpy`, none for
any other call. -/
def Event.writes (e : Event) : List (Ptr × Byte) :=
  match e.call with
  | .memcpy dst bytes => writes_from dst.block dst.off bytes
  | _ => []

/-- The state a successful `mcdb_makefn_start` on `fname` from world `w`
leaves: context `m1` and world `w1`, where `b` is the block the allocator
handed out, `fd`, `ino` and `sfx` the descriptor, inode and suffix `mkstemp`
picked, `st` the mode recorded and `rs` what `stat` returned. -/
structure Started (cfg : Config) (fname : List Byte) (fm ff : Nat) (w : World)
    (m1 : mcdb_make) (w1 : World) (b fd ino : Nat) (sfx : List Byte) (st : Nat)
    (rs : Int) : Prop where
  sfx_len : sfx.length = 6
  sfx_nul : (0 : Nat) ∉ sfx
  heap_fresh : w.heap b = none
  name_fresh : w.names (c_string fname ++ 46 :: sfx) = none
  fd_fresh : w.fds fd = none
  ino_fresh : w.inodes ino = none
  size : alloc_size cfg (c_string fname).length = 2 * (c_string fname).length + 9
  ctx : m1 = { head0 := none, fntmp := some ⟨b, 0⟩,
               fname := some ⟨b, (c_string fname).length + 8⟩, fd := (fd : Int),
               st_mode := st, fn_malloc := fm, fn_free := ff }
  calls : w1.trace = w.trace
    ++ ⟨.stat (c_string fname), rs⟩
      :: ⟨.malloc fm (2 * (c_string fname).length + 9) (some ⟨b, 0⟩), 0⟩
      :: copy_events b (c_string fname)
    ++ umask_before cfg w.umask ++ [⟨.mkstemp (some ⟨b, 0⟩), (fd : Int)⟩]
    ++ umask_after cfg w.umask
  names : w1.names = Function.update w.names (c_string fname ++ 46 :: sfx) (some ino)
  inodes : w1.inodes = Function.update w.inodes ino
    (some (created_mode cfg (if cfg.old_glibc then 0o077 else w.umask)))
  fds : w1.fds = Function.update w.fds fd (some ino)
  heap : w1.heap = Function.update w.heap b
    (some (c_string fname ++ 46 :: sfx ++ 0 :: (c_string fname ++ [0])))
  umask : w1.umask = w.umask

/-- The context and world states reachable by one `mcdb_makefn_start`, called
in world `w0`, followed by any sequence of `mcdb_makefn_finish` and
`mcdb_makefn_cleanup` calls, under any choices of the environment. -/
inductive Reachable (cfg : Config) (w0 : World) : mcdb_make → World → Prop where
  | start (m : mcdb_make) (fname : List Byte) (fm ff : Nat) (o : StartChoices)
      (r : Int) (m1 : mcdb_make) (w1 : World) :
      mcdb_makefn_start cfg m fname fm ff o w0 = some (r, m1, w1) → Reachable cfg w0 m1 w1
  | finish (m : mcdb_make) (w : World) (datasync : Bool) (o : FinishChoices) :
      Reachable cfg w0 m w →
      Reachable cfg w0 (mcdb_makefn_finish m datasync o w).2.1
        (mcdb_makefn_finish m datasync o w).2.2
  | cleanup (m : mcdb_make) (w : World) (o : CleanupChoices) :
      Reachable cfg w0 m w →
      Reachable cfg w0 (mcdb_makefn_cleanup m o w).2.1 (mcdb_makefn_cleanup m o w).2.2

/-! ## Concrete scenarios -/

/-- A 64-bit build against a current C library. -/
def ex_cfg : Config := ⟨64, false⟩

/-- An empty environment: no files, no open descriptors, no heap blocks,
`errno` 0, umask 022. -/
def ex_world : World :=
  ⟨0, 0o022, fun _ => none, fun _ => none, fun _ => none, fun _ => none, []⟩

/-- A context whose fields hold arbitrary values. -/
def ex_ctx : mcdb_make := ⟨none, some ⟨9, 9⟩, none, 5, 0, 0, 0⟩

/-- The final path `"x"`. -/
def ex_path : List Byte := [120]

/-- The suffix `"abcdef"`. -/
def ex_sfx : List Byte := [97, 98, 99, 100, 101, 102]

/-- Every call of `mcdb_makefn_start` succeeds: the allocator hands out block
7, `mkstemp` picks descriptor 3, inode 5 and the suffix `"abcdef"`. -/
def ex_start_ok : StartChoices :=
  ⟨none, some 7, none, fun _ => 1, .ok 3 5 ex_sfx, none⟩

/-- No call of `mcdb_makefn_finish` is made to fail, and `fchmod` keeps the
set-group-ID bit. -/
def ex_finish_ok : FinishChoices := ⟨none, none, none, none, false⟩

/-- No call of `mcdb_makefn_cleanup` is made to fail. -/
def ex_cleanup_ok : CleanupChoices := ⟨none, none, none⟩

/-- The result of `mcdb_makefn_start` on `"x"` in the empty environment. -/
def ex_started : Int × mcdb_make × World :=
  (mcdb_makefn_start ex_cfg ex_ctx ex_path 11 12 ex_start_ok ex_world).getD
    (0, ex_ctx, ex_world)

/-- The result of a following `mcdb_makefn_finish` with `datasync` set. -/
def ex_finished : Int × mcdb_make × World :=
  mcdb_makefn_finish ex_started.2.1 true ex_finish_ok ex_started.2.2

/-- An environment in which `"x"` is a regular file of mode 0644 (inode 4). -/
def ex_world_old : World :=
  ⟨0, 0o022, fun p => if p = ex_path then some 4 else none,
    fun i => if i = 4 then some (S_IFREG ||| 0o644) else none,
    fun _ => none, fun _ => none, []⟩

/-- An environment in which `"x"` is a directory of mode 0755 (inode 4). -/
def ex_world_dir : World :=
  ⟨0, 0o022, fun p => if p = ex_path then some 4 else none,
    fun i => if i = 4 then some (S_IFDIR ||| 0o755) else none,
    fun _ => none, fun _ => none, []⟩

/-- An environment in which `"x"` is a regular file of mode 02755, set-group-ID
(inode 4). -/
def ex_world_sgid : World :=
  ⟨0, 0o022, fun p => if p = ex_path then some 4 else none,
    fun i => if i = 4 then some (S_IFREG ||| 0o2755) else none,
    fun _ => none, fun _ => none, []⟩

/-- No call of `mcdb_makefn_finish` fails, and the successful `fchmod` turns
the set-group-ID bit off (the caller is not in the file's group). -/
def ex_finish_sgid : FinishChoices := ⟨none, none, none, none, true⟩

/-- The result of `mcdb_makefn_start` on `"x"` in `ex_world_sgid`. -/
def ex_sgid_started : Int × mcdb_make × World :=
  (mcdb_makefn_start ex_cfg ex_ctx ex_path 11 12 ex_start_ok ex_world_sgid).getD
    (-1, ex_ctx, ex_world_sgid)

/-- The result of the following `mcdb_makefn_finish` under `ex_finish_sgid`. -/
def ex_sgid_finished : Int × mcdb_make × World :=
  mcdb_makefn_finish ex_sgid_started.2.1 true ex_finish_sgid ex_sgid_started.2.2

/-- The empty environment with `errno` set to 5. -/
def ex_world_err : World := { ex_world with errno := 5 }

/-- The allocator hands out block 7, `mkstemp` fails with `EACCES` (13), and
the release function leaves 22 in `errno`. -/
def ex_start_clobber : StartChoices :=
  ⟨none, some 7, none, fun _ => 1, .fail 13, some 22⟩

/-- The result of `mcdb_makefn_start` on `"x"` under `ex_start_clobber`. -/
def ex_clobbered : Int × mcdb_make × World :=
  (mcdb_makefn_start ex_cfg ex_ctx ex_path 11 12 ex_start_clobber ex_world).getD
    (0, ex_ctx, ex_world)

/-- Whether the `stat` phase of `mcdb_makefn_start` lets it go on to the
allocation: `stat` fails with `ENOENT` (injected, or because nothing exists
at `path`), or it succeeds on a regular file. -/
def stat_passes (o : StartChoices) (w : World) (path : Path) : Bool :=
  match o.stat with
  | some e => e == ENOENT
  | none =>
    match (w.names path).bind w.inodes with
    | none => true
    | some mode => S_ISREG mode

/-- The two outcomes of `fchmod`: failure, with its cause, or success. -/
theorem sys_fchmod_cases (fd : Int) (mode : Nat) (inj : Option Int) (cl : Bool)
    (w : World) :
    (∃ e, sys_fchmod fd mode inj cl w = (-1, w.fail (.fchmod fd mode) e)
      ∧ (lookupFd w fd = none ∨ inj ≠ none)) ∨
    (∃ w1 ino, sys_fchmod fd mode inj cl w = (0, w1) ∧ lookupFd w fd = some ino
      ∧ inj = none
      ∧ w1.inodes = Function.update w.inodes ino
          ((w.inodes ino).map fun old => (old &&& S_IFMT) ||| applied_perm mode cl)
      ∧ w1.trace = w.trace ++ [⟨.fchmod fd mode, 0⟩]
      ∧ w1.errno = w.errno ∧ w1.names = w.names ∧ w1.fds = w.fds ∧ w1.heap = w.heap
      ∧ w1.umask = w.umask) := by
  unfold sys_fchmod
  cases h : lookupFd w fd with
  | none => exact Or.inl ⟨_, rfl, Or.inl rfl⟩
  | some ino =>
    cases inj with
    | some e => exact Or.inl ⟨_, rfl, Or.inr (by simp)⟩
    | none => exact Or.inr ⟨_, ino, rfl, rfl, rfl, rfl, rfl, rfl, rfl, rfl, rfl, rfl⟩

/-- The two outcomes of `fdatasync`. -/
theorem sys_fdatasync_cases (fd : Int) (inj : Option Int) (w : World) :
    (∃ e, sys_fdatasync fd inj w = (-1, w.fail (.fdatasync fd) e)
      ∧ (lookupFd w fd = none ∨ inj ≠ none)) ∨
    (∃ w1, sys_fdatasync fd inj w = (0, w1) ∧ lookupFd w fd ≠ none ∧ inj = none
      ∧ w1.trace = w.trace ++ [⟨.fdatasync fd, 0⟩]
      ∧ w1.errno = w.errno ∧ w1.names = w.names ∧ w1.inodes = w.inodes
      ∧ w1.fds = w.fds ∧ w1.heap = w.heap ∧ w1.umask = w.umask) := by
  unfold sys_fdatasync
  cases h : lookupFd w fd with
  | none => exact Or.inl ⟨_, rfl, Or.inl rfl⟩
  | some ino =>
    cases inj with
    | some e => exact Or.inl ⟨_, rfl, Or.inr (by simp)⟩
    | none => exact Or.inr ⟨_, rfl, by simp, rfl, rfl, rfl, rfl, rfl, rfl, rfl, rfl⟩

/-- The two outcomes of `nointr_close`. -/
theorem nointr_close_cases (fd : Int) (inj : Option Int) (w : World) :
    (∃ e, nointr_close fd inj w = (-1, w.fail (.close fd) e)
      ∧ (lookupFd w fd = none ∨ inj ≠ none)) ∨
    (∃ w1, nointr_close fd inj w = (0, w1) ∧ lookupFd w fd ≠ none ∧ inj = none
      ∧ w1.trace = w.trace ++ [⟨.close fd, 0⟩]
      ∧ w1.fds = Function.update w.fds fd.toNat none
      ∧ w1.errno = w.errno ∧ w1.names = w.names ∧ w1.inodes = w.inodes
      ∧ w1.heap = w.heap ∧ w1.umask = w.umask) := by
  unfold nointr_close
  cases h : lookupFd w fd with
  | none => exact Or.inl ⟨_, rfl, Or.inl rfl⟩
  | some ino =>
    cases inj with
    | some e => exact Or.inl ⟨_, rfl, Or.inr (by simp)⟩
    | none => exact Or.inr ⟨_, rfl, by simp, rfl, rfl, rfl, rfl, rfl, rfl, rfl, rfl⟩

/-- The two outcomes of `rename`; a failure that the environment did not
inject means that nothing exists under the old name. -/
theorem sys_rename_cases (old new : Option Ptr) (inj : Option Int) (w : World) :
    (∃ e, sys_rename old new inj w = (-1, w.fail (.rename old new) e)
      ∧ (inj = none → ∀ o n, readCStr w.heap old = some o → readCStr w.heap new = some n →
          w.names o = none)) ∨
    (∃ w1 o n i, sys_rename old new inj w = (0, w1) ∧ inj = none
      ∧ readCStr w.heap old = some o ∧ readCStr w.heap new = some n
      ∧ w.names o = some i ∧ w1.names n = some i
      ∧ (n ≠ o → w.names n ≠ some i → w1.names o = none)
      ∧ (∀ p, p ≠ o → p ≠ n → w1.names p = w.names p)
      ∧ w1.trace = w.trace ++ [⟨.rename old new, 0⟩]
      ∧ w1.errno = w.errno ∧ w1.inodes = w.inodes ∧ w1.fds = w.fds ∧ w1.heap = w.heap
      ∧ w1.umask = w.umask) := by
  cases ho : readCStr w.heap old with
  | none => exact Or.inl ⟨EFAULT, by simp [sys_rename, ho], by simp⟩
  | some o =>
    cases hn : readCStr w.heap new with
    | none => exact Or.inl ⟨EFAULT, by simp [sys_rename, ho, hn], by simp⟩
    | some n =>
      cases hi : w.names o with
      | none => exact Or.inl ⟨ENOENT, by simp [sys_rename, ho, hn, hi], by simp [hi]⟩
      | some i =>
        cases inj with
        | some e => exact Or.inl ⟨e, by simp [sys_rename, ho, hn, hi], by simp⟩
        | none =>
          by_cases hs : w.names n = some i
          · exact Or.inr ⟨w.ok (.rename old new) 0, o, n, i,
              by simp [sys_rename, ho, hn, hi, hs], rfl, rfl, rfl, hi, hs,
              fun _ h => absurd hs h, fun _ _ _ => rfl, rfl, rfl, rfl, rfl, rfl, rfl⟩
          · refine Or.inr ⟨{ w with
                names := Function.update (Function.update w.names n (some i)) o none, trace :=
                  w.trace ++ [⟨.rename old new, 0⟩] }, o, n, i,
              by simp [sys_rename, ho, hn, hi, hs],
              rfl, rfl, rfl, hi, ?_, fun _ _ => by simp,
              fun p h1 h2 => by simp [Function.update_noteq h1, Function.update_noteq h2],
              rfl, rfl, rfl, rfl, rfl, rfl⟩
            by_cases hno : n = o
            · subst hno; exact absurd hi hs
            · simp [Function.update_noteq hno]

/-- The two outcomes of `unlink`; a failure that the environment did not
inject means that nothing exists under the name. -/
theorem sys_unlink_cases (path : Option Ptr) (inj : Option Int) (w : World) :
    (∃ e, sys_unlink path inj w = (-1, w.fail (.unlink path) e)
      ∧ (inj = none → ∀ p, readCStr w.heap path = some p → w.names p = none)) ∨
    (∃ w1 p, sys_unlink path inj w = (0, w1)
      ∧ readCStr w.heap path = some p ∧ inj = none
      ∧ w1.trace = w.trace ++ [⟨.unlink path, 0⟩]
      ∧ w1.names = Function.update w.names p none
      ∧ w1.errno = w.errno ∧ w1.inodes = w.inodes ∧ w1.fds = w.fds
      ∧ w1.heap = w.heap ∧ w1.umask = w.umask ∧ w.names p ≠ none) := by
  cases hp : readCStr w.heap path with
  | none => exact Or.inl ⟨EFAULT, by simp [sys_unlink, hp], by simp⟩
  | some p =>
    cases hi : w.names p with
    | none => exact Or.inl ⟨ENOENT, by simp [sys_unlink, hp, hi], by simp [hi]⟩
    | some i =>
      cases inj with
      | some e => exact Or.inl ⟨e, by simp [sys_unlink, hp, hi], by simp⟩
      | none =>
        exact Or.inr ⟨{ w with names := Function.update w.names p none,
                               trace := w.trace ++ [⟨.unlink path, 0⟩] }, p,
          by simp [sys_unlink, hp, hi], rfl, rfl, rfl, rfl, rfl, rfl, rfl, rfl, rfl,
          by simp [hi]⟩


/-! ## C strings -/

theorem takeWhile_nul (l r : List Byte) (h : (0 : Nat) ∉ l) :
    (l ++ 0 :: r).takeWhile (fun b => b != 0) = l := by
  induction l with
  | nil => simp
  | cons a t ih =>
    have ha : a ≠ 0 := fun e => h (by simp [e])
    have ht : (0 : Nat) ∉ t := fun e => h (by simp [e])
    have hb : (a != 0) = true := by simpa using ha
    simp [List.takeWhile_cons, hb, ih ht]

theorem strlen_nul (l r : List Byte) (h : (0 : Nat) ∉ l) :
    strlen (l ++ 0 :: r) = l.length := by
  simp [strlen, takeWhile_nul l r h]

theorem c_string_of_no_nul (fname : List Byte) (h : (0 : Nat) ∉ fname) :
    c_string fname = fname := takeWhile_nul fname [] h

theorem c_string_no_nul (fname : List Byte) : (0 : Nat) ∉ c_string fname := by
  intro h
  have := List.mem_takeWhile_imp h
  simp at this

theorem c_string_split (fname : List Byte) :
    ∃ r, fname ++ [0] = c_string fname ++ 0 :: r := by
  induction fname with
  | nil => exact ⟨[], by simp [c_string]⟩
  | cons a t ih =>
    obtain ⟨r, hr⟩ := ih
    by_cases ha : a = 0
    · subst ha; exact ⟨t ++ [0], by simp [c_string]⟩
    · refine ⟨r, ?_⟩
      have hb : (a != 0) = true := by simpa using ha
      have : c_string (a :: t) = a :: c_string t := by
        simp [c_string, List.takeWhile_cons, hb]
      rw [this]; simpa using hr

theorem strlen_c_string (fname : List Byte) :
    strlen (fname ++ [0]) = (c_string fname).length := rfl

theorem take_c_string (fname : List Byte) :
    (fname ++ [0]).take (strlen (fname ++ [0])) = c_string fname := by
  obtain ⟨r, hr⟩ := c_string_split fname
  rw [strlen_c_string, hr]; simp

theorem take_succ_c_string (fname : List Byte) :
    (fname ++ [0]).take (strlen (fname ++ [0]) + 1) = c_string fname ++ [0] := by
  obtain ⟨r, hr⟩ := c_string_split fname
  rw [strlen_c_string, hr, List.take_append]; simp

/-- Reading a C string that sits in a block between a known number of bytes
and a NUL. -/
theorem readCStr_at (heap : Nat → Option (List Byte)) (b : Nat) (pre s post : List Byte)
    (hb : heap b = some (pre ++ s ++ 0 :: post)) (hs : (0 : Nat) ∉ s) :
    readCStr heap (some ⟨b, pre.length⟩) = some s := by
  simp [readCStr, hb, strlen_nul s post hs]
/-! ## The copies and the temp-file creation -/

theorem memcpy_ok (b off : Nat) (src : List Byte) (n : Nat) (w : World) (buf : List Byte)
    (hb : w.heap b = some buf) (h1 : off + n ≤ buf.length) (h2 : n ≤ src.length) :
    memcpy ⟨b, off⟩ src n w = some { w with
      heap := Function.update w.heap b (some (buf.take off ++ src.take n ++ buf.drop (off + n))),
      trace := w.trace ++ [⟨.memcpy ⟨b, off⟩ (src.take n), 0⟩] } := by
  simp [memcpy, hb, h1, h2]

theorem memcpy_ub (b off : Nat) (src : List Byte) (n : Nat) (w : World) (buf : List Byte)
    (hb : w.heap b = some buf) (h1 : buf.length < off + n) :
    memcpy ⟨b, off⟩ src n w = none := by
  simp [memcpy, hb]; omega

theorem memcpy_length (b off : Nat) (src : List Byte) (n : Nat) (w w1 : World)
    (buf : List Byte) (hb : w.heap b = some buf) (h : memcpy ⟨b, off⟩ src n w = some w1) :
    ∃ buf1, w1.heap b = some buf1 ∧ buf1.length = buf.length := by
  simp only [memcpy, hb] at h
  split at h
  · rename_i hc
    injection h with h
    subst h
    refine ⟨buf.take off ++ src.take n ++ buf.drop (off + n), by simp, ?_⟩
    simp [List.length_take, List.length_drop]
    omega
  · exact absurd h (by simp)

/-- The outcomes of `mkstemp` on the template Start builds for path `P`. -/
theorem mkstemp_cases (cfg : Config) (b : Nat) (P : Path) (choice : MkstempChoice)
    (w : World) (hP : (0 : Nat) ∉ P)
    (hb : w.heap b = some (P ++ suffix_template ++ (P ++ [0]))) :
    (∃ e, sys_mkstemp cfg (some ⟨b, 0⟩) choice w = (-1, w.fail (.mkstemp (some ⟨b, 0⟩)) e)
      ∧ (∀ e1, choice = .fail e1 → e = e1)
      ∧ (∀ fd ino sfx, choice = .ok fd ino sfx →
          ¬(sfx.length = 6 ∧ (0 : Nat) ∉ sfx ∧ w.names (P ++ 46 :: sfx) = none
            ∧ w.fds fd = none ∧ w.inodes ino = none))) ∨
    (∃ fd ino sfx, choice = .ok fd ino sfx ∧ sfx.length = 6 ∧ (0 : Nat) ∉ sfx
      ∧ w.names (P ++ 46 :: sfx) = none ∧ w.fds fd = none ∧ w.inodes ino = none
      ∧ sys_mkstemp cfg (some ⟨b, 0⟩) choice w = ((fd : Int),
          { w with
            heap := Function.update w.heap b (some (P ++ 46 :: sfx ++ 0 :: (P ++ [0]))),
            names := Function.update w.names (P ++ 46 :: sfx) (some ino),
            inodes := Function.update w.inodes ino (some (created_mode cfg w.umask)),
            fds := Function.update w.fds fd (some ino),
            trace := w.trace ++ [⟨.mkstemp (some ⟨b, 0⟩), (fd : Int)⟩] })) := by
  have hr : readCStr w.heap (some ⟨b, 0⟩) = some (P ++ [46, 88, 88, 88, 88, 88, 88]) := by
    have := readCStr_at w.heap b [] (P ++ [46, 88, 88, 88, 88, 88, 88]) (P ++ [0])
      (by simp [hb, suffix_template]) (by simp [hP])
    simpa using this
  have hd : (P ++ [46, 88, 88, 88, 88, 88, 88]).drop (P.length + 1) = placeholder := by
    rw [show P ++ [46, 88, 88, 88, 88, 88, 88] = (P ++ [46]) ++ placeholder by
      simp [placeholder]]
    exact List.drop_left' (by simp)
  have ht : (P ++ [46, 88, 88, 88, 88, 88, 88]).take (P.length + 1) = P ++ [46] := by
    rw [show P ++ [46, 88, 88, 88, 88, 88, 88] = (P ++ [46]) ++ placeholder by
      simp [placeholder]]
    exact List.take_left' (by simp)
  cases choice with
  | fail e =>
    exact Or.inl ⟨e, by simp [sys_mkstemp, hr, hd], by simp, by simp⟩
  | ok fd ino sfx =>
    by_cases hv : sfx.length = 6 ∧ 0 ∉ sfx ∧ w.names (P ++ 46 :: sfx) = none
        ∧ w.fds fd = none ∧ w.inodes ino = none
    · obtain ⟨h1, h2, h3, h4, h5⟩ := hv
      refine Or.inr ⟨fd, ino, sfx, rfl, h1, h2, h3, h4, h5, ?_⟩
      have e1 : List.take (P.length + 1) (P ++ (suffix_template ++ (P ++ [0])))
          = P ++ [46] := by
        rw [List.take_append]; simp [suffix_template]
      have e2 : List.drop (P.length + 1 + 6) (P ++ (suffix_template ++ (P ++ [0])))
          = 0 :: (P ++ [0]) := by
        rw [Nat.add_assoc, List.drop_append]; simp [suffix_template]
      simp [sys_mkstemp, hr, hd, ht, h1, h2, h3, h4, h5, hb, e1, e2]
    · refine Or.inl ⟨EEXIST, ?_, by simp, ?_⟩
      · simp [sys_mkstemp, hr, hd, ht]
        intro a b c d e
        exact hv ⟨a, b, c, d, e⟩
      · intro fd1 ino1 sfx1 he
        cases he
        exact hv
/-- The three copies of Start into a block of `2*len+9` bytes succeed and
leave the block holding `P`, `".XXXXXX"`, NUL, `P`, NUL. -/
theorem copies_ok {α : Type} (b : Nat) (cstr : List Byte) (P : Path) (w : World)
    (buf : List Byte)
    (h1 : cstr.take P.length = P) (h2 : cstr.take (P.length + 1) = P ++ [0])
    (hb : w.heap b = some buf) (hl : buf.length = 2 * P.length + 9)
    (k : World → Option α) :
    ((memcpy ⟨b, 0⟩ cstr P.length w).bind fun w1 =>
      (memcpy ⟨b, P.length⟩ suffix_template 8 w1).bind fun w2 =>
      (memcpy ⟨b, P.length + 8⟩ cstr (P.length + 1) w2).bind k)
    = k { w with
        heap := Function.update w.heap b (some (P ++ suffix_template ++ (P ++ [0]))),
        trace := w.trace ++ copy_events b P } := by
  have hc : P.length + 1 ≤ cstr.length := by
    have := congrArg List.length h2
    simp [List.length_take] at this
    omega
  rw [memcpy_ok b 0 cstr P.length w buf hb (by omega) (by omega)]
  simp only [Option.some_bind, List.take_zero, List.nil_append, Nat.zero_add, h1]
  rw [memcpy_ok b P.length suffix_template 8 _ (P ++ buf.drop P.length) (by simp)
    (by simp [List.length_drop]; omega) (by simp [suffix_template])]
  simp only [Option.some_bind]
  have e1 : List.take 8 suffix_template = suffix_template := rfl
  have e2 : List.take P.length (P ++ List.drop P.length buf) = P := List.take_left' rfl
  have e3 : List.drop (P.length + 8) (P ++ List.drop P.length buf)
      = List.drop (P.length + 8) buf := by
    rw [List.drop_append, List.drop_drop]
  rw [memcpy_ok b (P.length + 8) cstr (P.length + 1) _
    (P ++ suffix_template ++ buf.drop (P.length + 8)) (by simp [e1, e2, e3])
    (by simp [List.length_drop, suffix_template]; omega) hc]
  simp only [Option.some_bind, h2]
  have e4 : List.take (P.length + 8) (P ++ suffix_template ++ buf.drop (P.length + 8))
      = P ++ suffix_template := List.take_left' (by simp [suffix_template])
  have e5 : List.drop (P.length + 8 + (P.length + 1))
      (P ++ suffix_template ++ buf.drop (P.length + 8)) = [] := by
    apply List.drop_eq_nil_of_le
    simp [List.length_drop, suffix_template]; omega
  simp only [List.append_assoc] at e4 e5
  congr 1
  simp [e1, e2, e3, e4, e5, copy_events]

/-- In a block shorter than `2*len+9` bytes one of the three copies leaves the
block. -/
theorem copies_ub {α : Type} (b : Nat) (cstr : List Byte) (n : Nat) (w : World)
    (buf : List Byte) (hb : w.heap b = some buf) (hl : buf.length < 2 * n + 9)
    (k : World → Option α) :
    ((memcpy ⟨b, 0⟩ cstr n w).bind fun w1 =>
      (memcpy ⟨b, n⟩ suffix_template 8 w1).bind fun w2 =>
      (memcpy ⟨b, n + 8⟩ cstr (n + 1) w2).bind k) = none := by
  cases h1 : memcpy ⟨b, 0⟩ cstr n w with
  | none => rfl
  | some w1 =>
    obtain ⟨b1, hb1, hl1⟩ := memcpy_length b 0 cstr n w w1 buf hb h1
    cases h2 : memcpy ⟨b, n⟩ suffix_template 8 w1 with
    | none => simp [h2]
    | some w2 =>
      obtain ⟨b2, hb2, hl2⟩ := memcpy_length b n suffix_template 8 w1 w2 b1 hb1 h2
      simp [h2, memcpy_ub b (n + 8) cstr (n + 1) w2 b2 hb2 (by omega)]
theorem call_malloc_ok (fn size b : Nat) (e : Option Int) (junk : Nat → Byte) (w : World)
    (hb : w.heap b = none) :
    ∃ W, call_malloc fn size (some b) e junk w = (some ⟨b, 0⟩, W)
      ∧ W.heap = Function.update w.heap b (some ((List.range size).map junk))
      ∧ W.trace = w.trace ++ [⟨.malloc fn size (some ⟨b, 0⟩), 0⟩]
      ∧ W.errno = e.getD w.errno
      ∧ W.names = w.names ∧ W.inodes = w.inodes ∧ W.fds = w.fds ∧ W.umask = w.umask :=
  ⟨{ w with
      errno := e.getD w.errno,
      heap := Function.update w.heap b (some ((List.range size).map junk)), trace := w.trace
        ++ [⟨.malloc fn size (some ⟨b, 0⟩), 0⟩] },
    by simp [call_malloc, hb], rfl, rfl, rfl, rfl, rfl, rfl, rfl⟩

theorem sys_umask_spec (mask : Nat) (w : World) :
    ∃ W, sys_umask mask w = (w.umask, W)
      ∧ W.umask = mask ∧ W.trace = w.trace ++ [⟨.umask mask, w.umask⟩]
      ∧ W.errno = w.errno ∧ W.names = w.names ∧ W.inodes = w.inodes ∧ W.fds = w.fds
      ∧ W.heap = w.heap :=
  ⟨_, rfl, rfl, rfl, rfl, rfl, rfl, rfl, rfl⟩

theorem copies_spec (b : Nat) (cstr : List Byte) (P : Path) (w : World)
    (buf : List Byte)
    (h1 : cstr.take P.length = P) (h2 : cstr.take (P.length + 1) = P ++ [0])
    (hb : w.heap b = some buf) (hl : buf.length = 2 * P.length + 9) :
    ∃ W, (∀ (k : World → Option (Int × mcdb_make × World)),
        ((memcpy ⟨b, 0⟩ cstr P.length w).bind fun w1 =>
          (memcpy ⟨b, P.length⟩ suffix_template 8 w1).bind fun w2 =>
          (memcpy ⟨b, P.length + 8⟩ cstr (P.length + 1) w2).bind k) = k W)
      ∧ W.heap = Function.update w.heap b (some (P ++ suffix_template ++ (P ++ [0])))
      ∧ W.trace = w.trace ++ copy_events b P
      ∧ W.errno = w.errno ∧ W.names = w.names ∧ W.inodes = w.inodes ∧ W.fds = w.fds
      ∧ W.umask = w.umask :=
  ⟨_, fun k => copies_ok b cstr P w buf h1 h2 hb hl k, rfl, rfl, rfl, rfl, rfl, rfl, rfl⟩

theorem mkstemp_spec (cfg : Config) (b : Nat) (P : Path) (choice : MkstempChoice)
    (w : World) (hP : (0 : Nat) ∉ P)
    (hb : w.heap b = some (P ++ suffix_template ++ (P ++ [0]))) :
    (∃ e, sys_mkstemp cfg (some ⟨b, 0⟩) choice w = (-1, w.fail (.mkstemp (some ⟨b, 0⟩)) e)
      ∧ (∀ e1, choice = .fail e1 → e = e1)
      ∧ (∀ fd ino sfx, choice = .ok fd ino sfx →
          ¬(sfx.length = 6 ∧ (0 : Nat) ∉ sfx ∧ w.names (P ++ 46 :: sfx) = none
            ∧ w.fds fd = none ∧ w.inodes ino = none))) ∨
    (∃ fd ino sfx W, choice = .ok fd ino sfx ∧ sfx.length = 6 ∧ (0 : Nat) ∉ sfx
      ∧ w.names (P ++ 46 :: sfx) = none ∧ w.fds fd = none ∧ w.inodes ino = none
      ∧ sys_mkstemp cfg (some ⟨b, 0⟩) choice w = ((fd : Int), W)
      ∧ W.heap = Function.update w.heap b (some (P ++ 46 :: sfx ++ 0 :: (P ++ [0])))
      ∧ W.names = Function.update w.names (P ++ 46 :: sfx) (some ino)
      ∧ W.inodes = Function.update w.inodes ino (some (created_mode cfg w.umask))
      ∧ W.fds = Function.update w.fds fd (some ino)
      ∧ W.trace = w.trace ++ [⟨.mkstemp (some ⟨b, 0⟩), (fd : Int)⟩]
      ∧ W.errno = w.errno ∧ W.umask = w.umask) := by
  rcases mkstemp_cases cfg b P choice w hP hb with h | ⟨fd, ino, sfx, h1, h2, h3, h4, h5, h6, h7⟩
  · exact Or.inl h
  · exact Or.inr ⟨fd, ino, sfx, _, h1, h2, h3, h4, h5, h6, h7, rfl, rfl, rfl, rfl, rfl, rfl, rfl⟩
theorem alloc_size_le (cfg : Config) (n : Nat) : alloc_size cfg n ≤ 2 * n + 9 := by
  unfold alloc_size
  have h1 := Nat.mod_le ((n <<< 1) % 2 ^ cfg.size_bits + 9) (2 ^ cfg.size_bits)
  have h2 := Nat.mod_le (n <<< 1) (2 ^ cfg.size_bits)
  have h3 : n <<< 1 = 2 * n := by simp [Nat.shiftLeft_eq, Nat.mul_comm]
  omega

theorem alloc_size_eq (cfg : Config) (n : Nat) (h : 2 * n + 9 < 2 ^ cfg.size_bits) :
    alloc_size cfg n = 2 * n + 9 := by
  unfold alloc_size
  have h3 : n <<< 1 = 2 * n := by simp [Nat.shiftLeft_eq, Nat.mul_comm]
  rw [h3, Nat.mod_eq_of_lt (show 2 * n < 2 ^ cfg.size_bits by omega)]
  exact Nat.mod_eq_of_lt h

/-- The four outcomes of lines 82 to 113 of Start: the allocation fails; a
copy leaves the buffer (only when `2*len+9` wrapped around); `mkstemp` fails
and the buffer is released; success. -/
theorem start_create_cases (cfg : Config) (m : mcdb_make) (fname : List Byte)
    (st_mode fm ff : Nat) (o : StartChoices) (w : World) :
    (∃ w1, mcdb_makefn_start_create cfg m (fname ++ [0]) (strlen (fname ++ [0]))
          st_mode fm ff o w = some (-1, m, w1)
        ∧ (o.malloc = none ∨ ∃ b, o.malloc = some b ∧ w.heap b ≠ none)
        ∧ w1.trace = w.trace
            ++ [⟨.malloc fm (alloc_size cfg (c_string fname).length) none, -1⟩]
        ∧ w1.errno = o.malloc_errno.getD w.errno
        ∧ w1.names = w.names ∧ w1.inodes = w.inodes ∧ w1.fds = w.fds
        ∧ w1.heap = w.heap ∧ w1.umask = w.umask)
    ∨ (mcdb_makefn_start_create cfg m (fname ++ [0]) (strlen (fname ++ [0]))
          st_mode fm ff o w = none
        ∧ alloc_size cfg (c_string fname).length < 2 * (c_string fname).length + 9)
    ∨ (∃ b e w1, o.malloc = some b ∧ w.heap b = none
        ∧ alloc_size cfg (c_string fname).length = 2 * (c_string fname).length + 9
        ∧ mcdb_makefn_start_create cfg m (fname ++ [0]) (strlen (fname ++ [0]))
            st_mode fm ff o w
          = some (-1, { m with st_mode := st_mode, fn_malloc := fm, fn_free := ff, fd := -1 }, w1)
        ∧ (∀ e1, o.mkstemp = .fail e1 → e = e1)
        ∧ (∀ fd ino sfx, o.mkstemp = .ok fd ino sfx →
            ¬(sfx.length = 6 ∧ (0 : Nat) ∉ sfx
              ∧ w.names (c_string fname ++ 46 :: sfx) = none
              ∧ w.fds fd = none ∧ w.inodes ino = none))
        ∧ w1.trace = w.trace
            ++ ⟨.malloc fm (2 * (c_string fname).length + 9) (some ⟨b, 0⟩), 0⟩
              :: copy_events b (c_string fname)
            ++ umask_before cfg w.umask ++ [⟨.mkstemp (some ⟨b, 0⟩), -1⟩] ++ umask_after cfg w.umask
            ++ [⟨.free ff (some ⟨b, 0⟩), 0⟩]
        ∧ w1.errno = o.free_errno.getD e
        ∧ w1.names = w.names ∧ w1.inodes = w.inodes ∧ w1.fds = w.fds
        ∧ w1.heap = w.heap ∧ w1.umask = w.umask)
    ∨ (∃ b fd ino sfx w1, o.malloc = some b ∧ w.heap b = none
        ∧ alloc_size cfg (c_string fname).length = 2 * (c_string fname).length + 9
        ∧ o.mkstemp = .ok fd ino sfx ∧ sfx.length = 6 ∧ (0 : Nat) ∉ sfx
        ∧ w.names (c_string fname ++ 46 :: sfx) = none ∧ w.fds fd = none
        ∧ w.inodes ino = none
        ∧ mcdb_makefn_start_create cfg m (fname ++ [0]) (strlen (fname ++ [0]))
            st_mode fm ff o w
          = some (0, { m with st_mode := st_mode, fn_malloc := fm, fn_free := ff,
                              fd := (fd : Int), fntmp := some ⟨b, 0⟩,
                              fname := some ⟨b, (c_string fname).length + 8⟩ }, w1)
        ∧ w1.trace = w.trace
            ++ ⟨.malloc fm (2 * (c_string fname).length + 9) (some ⟨b, 0⟩), 0⟩
              :: copy_events b (c_string fname)
            ++ umask_before cfg w.umask ++ [⟨.mkstemp (some ⟨b, 0⟩), (fd : Int)⟩]
            ++ umask_after cfg w.umask
        ∧ w1.errno = o.malloc_errno.getD w.errno
        ∧ w1.names = Function.update w.names (c_string fname ++ 46 :: sfx) (some ino)
        ∧ w1.inodes = Function.update w.inodes ino
            (some (created_mode cfg (if cfg.old_glibc then 0o077 else w.umask)))
        ∧ w1.fds = Function.update w.fds fd (some ino)
        ∧ w1.heap = Function.update w.heap b
            (some (c_string fname ++ 46 :: sfx ++ 0 :: (c_string fname ++ [0])))
        ∧ w1.umask = w.umask) := by
  have hlen := strlen_c_string fname
  have ht1 : (fname ++ [0]).take (c_string fname).length = c_string fname := by
    rw [← hlen]; exact take_c_string fname
  have ht2 : (fname ++ [0]).take ((c_string fname).length + 1) = c_string fname ++ [0] := by
    rw [← hlen]; exact take_succ_c_string fname
  have h0 := c_string_no_nul fname
  rw [hlen]
  generalize c_string fname = P at *
  generalize fname ++ [0] = cstr at *
  cases hm : o.malloc with
  | none =>
    refine Or.inl ⟨{ w with
        errno := o.malloc_errno.getD w.errno, trace := w.trace
          ++ [⟨.malloc fm (alloc_size cfg P.length) none, -1⟩] },
      ?_, Or.inl rfl, rfl, rfl, rfl, rfl, rfl, rfl, rfl⟩
    simp [mcdb_makefn_start_create, call_malloc, hm]
  | some b =>
    by_cases hh : w.heap b = none
    · refine Or.inr ?_
      by_cases hs : alloc_size cfg P.length = 2 * P.length + 9
      · obtain ⟨W0, hW0, hh0, ht0, he0, hn0, hi0, hf0, hu0⟩ :=
          call_malloc_ok fm (alloc_size cfg P.length) b o.malloc_errno o.junk w hh
        obtain ⟨W3, hW3, hh3, ht3, he3, hn3, hi3, hf3, hu3⟩ :=
          copies_spec b cstr P W0 ((List.range (alloc_size cfg P.length)).map o.junk) ht1 ht2
            (by rw [hh0]; simp) (by simp [hs])
        have hb3 : W3.heap b = some (P ++ suffix_template ++ (P ++ [0])) := by
          rw [hh3]; simp
        cases hg : cfg.old_glibc
        · rcases mkstemp_spec cfg b P o.mkstemp W3 h0 hb3 with
            ⟨e, hk, hee, hinv⟩ |
            ⟨fd, ino, sfx, W4, hc, h1, h2, h3, h4, h5, hk, hh4, hn4, hi4, hf4, ht4, he4, hu4⟩
          · rw [hn3, hn0, hf3, hf0, hi3, hi0] at hinv
            refine Or.inr (Or.inl ⟨b, e, call_free ff (some ⟨b, 0⟩) o.free_errno
              (W3.fail (.mkstemp (some ⟨b, 0⟩)) e), rfl, hh, hs, ?_, hee, hinv, ?_, ?_, ?_,
              ?_, ?_, ?_, ?_⟩)
            · simp [mcdb_makefn_start_create, hm, hW0, hW3, hg, hk]
            all_goals
              simp [call_free, World.fail, ht3, ht0, hn3, hn0, hi3, hi0, hf3, hf0, hu3, hu0,
                hh3, hh0, hh, hs, hg, umask_before, umask_after]
          · rw [hn3, hn0] at h3
            rw [hf3, hf0] at h4
            rw [hi3, hi0] at h5
            refine Or.inr (Or.inr ⟨b, fd, ino, sfx, W4, rfl, hh, hs, hc, h1, h2, h3, h4, h5,
              ?_, ?_, ?_, ?_, ?_, ?_, ?_, ?_⟩)
            · have hne : (fd : Int) ≠ -1 := by omega
              simp [mcdb_makefn_start_create, hm, hW0, hW3, hg, hk, hne, EXIT_SUCCESS]
            all_goals
              simp [ht4, hn4, hi4, hf4, hh4, he4, hu4, ht3, ht0, hn3, hn0, hi3, hi0, hf3, hf0,
                hu3, hu0, he3, he0, hh3, hh0, hs, hg, umask_before, umask_after]
        · obtain ⟨U, hU, hUu, hUt, hUe, hUn, hUi, hUf, hUh⟩ := sys_umask_spec 0o077 W3
          have hbU : U.heap b = some (P ++ suffix_template ++ (P ++ [0])) := by
            rw [hUh]; exact hb3
          rcases mkstemp_spec cfg b P o.mkstemp U h0 hbU with
            ⟨e, hk, hee, hinv⟩ |
            ⟨fd, ino, sfx, W4, hc, h1, h2, h3, h4, h5, hk, hh4, hn4, hi4, hf4, ht4, he4, hu4⟩
          · obtain ⟨V, hV, hVu, hVt, hVe, hVn, hVi, hVf, hVh⟩ :=
              sys_umask_spec W3.umask (U.fail (.mkstemp (some ⟨b, 0⟩)) e)
            rw [hUn, hn3, hn0, hUf, hf3, hf0, hUi, hi3, hi0] at hinv
            refine Or.inr (Or.inl ⟨b, e, call_free ff (some ⟨b, 0⟩) o.free_errno V,
              rfl, hh, hs, ?_, hee, hinv, ?_, ?_, ?_, ?_, ?_, ?_, ?_⟩)
            · simp [mcdb_makefn_start_create, hm, hW0, hW3, hg, hk, hU, hV]
            all_goals
              simp [call_free, World.fail, hVu, hVt, hVe, hVn, hVi, hVf, hVh,
                hUu, hUt, hUe, hUn, hUi, hUf, hUh, ht3, ht0, hn3, hn0, hi3, hi0, hf3, hf0,
                hu3, hu0, hh3, hh0, hh, hs, hg, umask_before, umask_after]
          · obtain ⟨V, hV, hVu, hVt, hVe, hVn, hVi, hVf, hVh⟩ := sys_umask_spec W3.umask W4
            rw [hUn, hn3, hn0] at h3
            rw [hUf, hf3, hf0] at h4
            rw [hUi, hi3, hi0] at h5
            refine Or.inr (Or.inr ⟨b, fd, ino, sfx, V, rfl, hh, hs, hc, h1, h2, h3, h4, h5,
              ?_, ?_, ?_, ?_, ?_, ?_, ?_, ?_⟩)
            · have hne : (fd : Int) ≠ -1 := by omega
              simp [mcdb_makefn_start_create, hm, hW0, hW3, hg, hk, hU, hV, hne, EXIT_SUCCESS]
            all_goals
              simp [hVu, hVt, hVe, hVn, hVi, hVf, hVh, hUu, hUt, hUe, hUn, hUi, hUf, hUh,
                ht4, hn4, hi4, hf4, hh4, he4, hu4, ht3, ht0, hn3, hn0, hi3, hi0, hf3, hf0,
                hu3, hu0, he3, he0, hh3, hh0, hs, hg, umask_before, umask_after]
      · refine Or.inl ⟨?_, by have := alloc_size_le cfg P.length; omega⟩
        simp only [mcdb_makefn_start_create, call_malloc, hm, hh, if_true, Nat.zero_add]
        exact copies_ub b cstr P.length _ ((List.range (alloc_size cfg P.length)).map o.junk)
          (by simp) (by have := alloc_size_le cfg P.length; simp; omega) _
    · refine Or.inl ⟨{ w with
          errno := o.malloc_errno.getD w.errno, trace := w.trace
            ++ [⟨.malloc fm (alloc_size cfg P.length) none, -1⟩] },
        ?_, Or.inr ⟨b, rfl, hh⟩, rfl, rfl, rfl, rfl, rfl, rfl, rfl⟩
      simp [mcdb_makefn_start_create, call_malloc, hm, hh]
/-- The three outcomes of lines 62 to 80 of Start: `stat` fails with an error
other than `ENOENT`; the target is not a regular file; Start goes on to
allocate, with the mode it recorded. -/
theorem start_stat_cases (cfg : Config) (m : mcdb_make) (fname : List Byte)
    (fm ff : Nat) (o : StartChoices) (w : World) :
    (∃ e, o.stat = some e ∧ e ≠ ENOENT
      ∧ mcdb_makefn_start cfg m fname fm ff o w
        = some (-1, { m with head0 := none, fntmp := none, fd := -1 },
            w.fail (.stat (c_string fname)) e))
    ∨ (∃ mode, o.stat = none ∧ (w.names (c_string fname)).bind w.inodes = some mode
      ∧ S_ISREG mode = false
      ∧ mcdb_makefn_start cfg m fname fm ff o w
        = some (-1, { m with head0 := none, fntmp := none, fd := -1 },
            { w.ok (.stat (c_string fname)) 0 with errno := EINVAL }))
    ∨ (∃ st r ws,
      mcdb_makefn_start cfg m fname fm ff o w
        = mcdb_makefn_start_create cfg { m with head0 := none, fntmp := none, fd := -1 }
            (fname ++ [0]) (strlen (fname ++ [0])) st fm ff o ws
      ∧ ws.trace = w.trace ++ [⟨.stat (c_string fname), r⟩]
      ∧ ws.names = w.names ∧ ws.inodes = w.inodes ∧ ws.fds = w.fds ∧ ws.heap = w.heap
      ∧ ws.umask = w.umask
      ∧ ((r = -1 ∧ st = S_IRUSR ∧ ws.errno = ENOENT
            ∧ (o.stat = some ENOENT
              ∨ (o.stat = none ∧ (w.names (c_string fname)).bind w.inodes = none)))
          ∨ (r = 0 ∧ o.stat = none ∧ (w.names (c_string fname)).bind w.inodes = some st
            ∧ S_ISREG st = true ∧ ws.errno = w.errno))) := by
  have hP := take_c_string fname
  unfold mcdb_makefn_start
  simp only [hP]
  cases hs : o.stat with
  | some e =>
    by_cases he : e = ENOENT
    · subst he
      refine Or.inr (Or.inr ⟨S_IRUSR, -1, w.fail (.stat (c_string fname)) ENOENT, ?_, rfl, rfl,
        rfl, rfl, rfl, rfl, Or.inl ⟨rfl, rfl, rfl, Or.inl rfl⟩⟩)
      simp [sys_stat, World.fail]
    · refine Or.inl ⟨e, rfl, he, ?_⟩
      simp [sys_stat, World.fail, he]
  | none =>
    cases hl : (w.names (c_string fname)).bind w.inodes with
    | none =>
      refine Or.inr (Or.inr ⟨S_IRUSR, -1, w.fail (.stat (c_string fname)) ENOENT, ?_, rfl, rfl,
        rfl, rfl, rfl, rfl, Or.inl ⟨rfl, rfl, rfl, Or.inr ⟨rfl, rfl⟩⟩⟩)
      simp [sys_stat, World.fail, hl]
    | some mode =>
      cases hr : S_ISREG mode
      · refine Or.inr (Or.inl ⟨mode, rfl, rfl, hr, ?_⟩)
        simp [sys_stat, hl, hr]
      · refine Or.inr (Or.inr ⟨mode, 0, w.ok (.stat (c_string fname)) 0, ?_, rfl, rfl,
          rfl, rfl, rfl, rfl, Or.inr ⟨rfl, rfl, rfl, hr, rfl⟩⟩)
        simp [sys_stat, hl, hr]
/-- What a return value 0 of Start tells about the environment's choices and
the state left. -/
theorem start_success_inv (cfg : Config) (m : mcdb_make) (fname : List Byte)
    (fm ff : Nat) (o : StartChoices) (w : World) (r : Int) (m1 : mcdb_make) (w1 : World)
    (h : mcdb_makefn_start cfg m fname fm ff o w = some (r, m1, w1)) (hr : r = 0) :
    ∃ b fd ino sfx st rs, o.malloc = some b ∧ o.mkstemp = .ok fd ino sfx
      ∧ ((rs = -1 ∧ st = S_IRUSR
            ∧ (o.stat = some ENOENT
              ∨ (o.stat = none ∧ (w.names (c_string fname)).bind w.inodes = none)))
          ∨ (rs = 0 ∧ o.stat = none ∧ (w.names (c_string fname)).bind w.inodes = some st
            ∧ S_ISREG st = true))
      ∧ Started cfg fname fm ff w m1 w1 b fd ino sfx st rs := by
  subst hr
  rcases start_stat_cases cfg m fname fm ff o w with
    ⟨e, _, _, hs⟩ | ⟨mode, _, _, _, hs⟩ |
    ⟨st, rs, ws, hs, hts, hns, his, hfs, hhs, hus, hcase⟩
  · rw [hs] at h; simp at h
  · rw [hs] at h; simp at h
  · rw [hs] at h
    rcases start_create_cases cfg { m with head0 := none, fntmp := none, fd := -1 }
        fname st fm ff o ws with
      ⟨wa, hc, _⟩ | ⟨hc, _⟩ | ⟨b, e, wc, _, _, _, hc, _⟩ |
      ⟨b, fd, ino, sfx, wd, hm, hb, hsz, hk, h1, h2, h3, h4, h5, hc, htd, _, hnd, hid, hfd,
        hhd, hud⟩
    · rw [hc] at h; simp at h
    · rw [hc] at h; simp at h
    · rw [hc] at h; simp at h
    · rw [hc] at h
      simp only [Option.some.injEq, Prod.mk.injEq, true_and] at h
      obtain ⟨rfl, rfl⟩ := h
      refine ⟨b, fd, ino, sfx, st, rs, hm, hk, ?_, ?_⟩
      · rcases hcase with ⟨a, b, _, c⟩ | ⟨a, b, c, d, _⟩
        · exact Or.inl ⟨a, b, c⟩
        · exact Or.inr ⟨a, b, c, d⟩
      · exact {
          sfx_len := h1
          sfx_nul := h2
          heap_fresh := by rw [← hhs]; exact hb
          name_fresh := by rw [← hns]; exact h3
          fd_fresh := by rw [← hfs]; exact h4
          ino_fresh := by rw [← his]; exact h5
          size := hsz
          ctx := rfl
          calls := by rw [htd, hts, hus]; simp only [List.append_assoc, List.cons_append,
            List.nil_append, List.singleton_append]
          names := by rw [hnd, hns]
          inodes := by rw [hid, his, hus]
          fds := by rw [hfd, hfs]
          heap := by rw [hhd, hhs]
          umask := by rw [hud, hus] }

/-- Start returns 0 when no call is made to fail and the choices of the
allocator and of `mkstemp` are available. -/
theorem start_success_fwd (cfg : Config) (m : mcdb_make) (fname : List Byte)
    (fm ff : Nat) (o : StartChoices) (w : World) (b fd ino : Nat) (sfx : List Byte)
    (hsz : 2 * (c_string fname).length + 9 < 2 ^ cfg.size_bits)
    (hstat : o.stat = none
      ∧ ∀ mode, (w.names (c_string fname)).bind w.inodes = some mode → S_ISREG mode = true)
    (hmalloc : o.malloc = some b) (hb : w.heap b = none)
    (hmk : o.mkstemp = .ok fd ino sfx) (h1 : sfx.length = 6) (h2 : (0 : Nat) ∉ sfx)
    (h3 : w.names (c_string fname ++ 46 :: sfx) = none) (h4 : w.fds fd = none)
    (h5 : w.inodes ino = none) :
    ∃ m1 w1, mcdb_makefn_start cfg m fname fm ff o w = some (0, m1, w1) := by
  rcases start_stat_cases cfg m fname fm ff o w with
    ⟨e, he, _, hs⟩ | ⟨mode, _, hmode, hreg, hs⟩ |
    ⟨st, rs, ws, hs, hts, hns, his, hfs, hhs, hus, hcase⟩
  · rw [hstat.1] at he; cases he
  · rw [hstat.2 mode hmode] at hreg; cases hreg
  · rw [hs]
    rcases start_create_cases cfg { m with head0 := none, fntmp := none, fd := -1 }
        fname st fm ff o ws with
      ⟨wa, hc, hf, _⟩ | ⟨hc, hlt⟩ | ⟨b1, e, wc, hm1, _, _, hc, _, hinv, _⟩ |
      ⟨b1, fd1, ino1, sfx1, wd, _, _, _, _, _, _, _, _, _, hc, _⟩
    · rcases hf with hf | ⟨b1, hf, hne⟩
      · rw [hmalloc] at hf; cases hf
      · rw [hmalloc] at hf; cases hf; rw [hhs] at hne; exact absurd hb hne
    · rw [alloc_size_eq cfg _ hsz] at hlt; exact absurd hlt (lt_irrefl _)
    · rw [hns, hfs, his] at hinv
      exact absurd ⟨h1, h2, h3, h4, h5⟩ (hinv fd ino sfx hmk)
    · exact ⟨_, _, hc⟩
theorem writes_from_append (b off : Nat) (l1 l2 : List Byte) :
    writes_from b off (l1 ++ l2)
      = writes_from b off l1 ++ writes_from b (off + l1.length) l2 := by
  induction l1 generalizing off with
  | nil => simp [writes_from]
  | cons x t ih =>
    simp [writes_from, ih, Nat.add_assoc, Nat.add_comm 1]

theorem writes_from_addr (b off : Nat) (l : List Byte) :
    (writes_from b off l).map (fun x => x.1)
      = (List.range' off l.length).map (fun i => (⟨b, i⟩ : Ptr)) := by
  induction l generalizing off with
  | nil => simp [writes_from]
  | cons x t ih => simp [writes_from, ih, List.range'_succ]

theorem writes_from_val (b off : Nat) (l : List Byte) :
    (writes_from b off l).map (fun x => x.2) = l := by
  induction l generalizing off with
  | nil => simp [writes_from]
  | cons x t ih => simp [writes_from, ih]

theorem copy_events_writes (b : Nat) (P : Path) :
    (copy_events b P).flatMap Event.writes
      = writes_from b 0 (P ++ suffix_template ++ (P ++ [0])) := by
  rw [writes_from_append, writes_from_append]
  have hl : (P ++ suffix_template).length = P.length + 8 := by simp [suffix_template]
  rw [hl]
  simp [copy_events, Event.writes, List.flatMap]

/-- After a successful Start the temp-path and final-path pointers read the
temp name and the final name. -/
theorem started_paths {cfg : Config} {fname : List Byte} {fm ff : Nat} {w : World}
    {m1 : mcdb_make} {w1 : World} {b fd ino : Nat} {sfx : List Byte} {st : Nat} {rs : Int}
    (hs : Started cfg fname fm ff w m1 w1 b fd ino sfx st rs) :
    readCStr w1.heap m1.fntmp = some (c_string fname ++ 46 :: sfx)
    ∧ readCStr w1.heap m1.fname = some (c_string fname) := by
  have h0 := c_string_no_nul fname
  have hb : w1.heap b
      = some (c_string fname ++ 46 :: sfx ++ 0 :: (c_string fname ++ [0])) := by
    rw [hs.heap]; simp
  constructor
  · rw [hs.ctx]
    have := readCStr_at w1.heap b [] (c_string fname ++ 46 :: sfx) (c_string fname ++ [0])
      (by simpa using hb) (by simp [h0, hs.sfx_nul])
    simpa using this
  · rw [hs.ctx]
    have := readCStr_at w1.heap b (c_string fname ++ 46 :: sfx ++ [0]) (c_string fname) []
      (by simpa using hb) h0
    simpa [hs.sfx_len, Nat.add_assoc] using this
/-! ## Mode bits -/

theorem perm_and_fmt (x : Nat) (hx : x ≤ 0o7777) : x &&& S_IFMT = 0 := by
  have h1 : x &&& S_IFMT ≤ x := Nat.and_le_left
  have h2 : (x &&& S_IFMT) &&& (2 ^ 12 - 1) = (x &&& S_IFMT) % 2 ^ 12 :=
    Nat.and_pow_two_sub_one_eq_mod _ 12
  rw [Nat.and_assoc] at h2
  have h3 : S_IFMT &&& (2 ^ 12 - 1) = 0 := by decide
  rw [h3, Nat.and_zero] at h2
  rw [Nat.mod_eq_of_lt (by omega)] at h2
  exact h2.symm

theorem perm_and_perm (x : Nat) (hx : x ≤ 0o7777) : x &&& S_PERM = x := by
  have h2 : x &&& (2 ^ 12 - 1) = x % 2 ^ 12 := Nat.and_pow_two_sub_one_eq_mod _ 12
  rw [Nat.mod_eq_of_lt (by omega)] at h2
  exact h2

theorem reg_or_and_fmt (x : Nat) (hx : x ≤ 0o7777) : (S_IFREG ||| x) &&& S_IFMT = S_IFREG := by
  rw [Nat.and_distrib_right, perm_and_fmt x hx]
  decide

theorem reg_or_and_perm (x : Nat) (hx : x ≤ 0o7777) : (S_IFREG ||| x) &&& S_PERM = x := by
  rw [Nat.and_distrib_right, perm_and_perm x hx]
  have : S_IFREG &&& S_PERM = 0 := by decide
  rw [this, Nat.zero_or]

theorem S_ISREG_reg_or (x : Nat) (hx : x ≤ 0o7777) : S_ISREG (S_IFREG ||| x) = true := by
  simp [S_ISREG, reg_or_and_fmt x hx]

theorem and_without_sgid (x : Nat) (hx : x ≤ 0o7777) (hg : x &&& S_ISGID = 0) :
    x &&& (S_PERM ^^^ S_ISGID) = x := by
  have h1 : S_PERM = (S_PERM ^^^ S_ISGID) ||| S_ISGID := by decide
  have h2 := perm_and_perm x hx
  rw [h1, Nat.and_or_distrib_left, hg, Nat.or_zero] at h2
  exact h2

theorem applied_perm_reg (x : Nat) (cl : Bool) (hx : x ≤ 0o7777) :
    applied_perm (S_IFREG ||| x) cl
      = if cl then x &&& (S_PERM ^^^ S_ISGID) else x := by
  unfold applied_perm
  rw [reg_or_and_perm x hx]

theorem applied_perm_irusr (cl : Bool) :
    applied_perm S_IRUSR cl = if cl then S_IRUSR &&& (S_PERM ^^^ S_ISGID) else S_IRUSR := by
  cases cl <;> decide

theorem created_mode_fmt (cfg : Config) (mask : Nat) :
    created_mode cfg mask &&& S_IFMT = S_IFREG := by
  unfold created_mode
  apply reg_or_and_fmt
  cases cfg.old_glibc
  · have h := @Nat.and_le_left 0o600 (0o777 ^^^ (mask &&& 0o777))
    simp only [Bool.false_eq_true, if_false]
    omega
  · have h := @Nat.and_le_left 0o666 (0o777 ^^^ (mask &&& 0o777))
    simp only [if_true]
    omega

theorem lookupFd_congr (w1 w : World) (fd : Int) (h : w1.fds = w.fds) :
    lookupFd w1 fd = lookupFd w fd := by
  simp [lookupFd, h]

/-! ## Finish and Cleanup -/

/-- The three outcomes of Finish: a failure up to and including `close`, which
leaves the context as it was; a failure of `rename`, with the descriptor
closed and the field at -2; success. -/
theorem finish_spec (m : mcdb_make) (ds : Bool) (fo : FinishChoices) (w : World) :
    (∃ w2 evs, mcdb_makefn_finish m ds fo w = (-1, m, w2)
      ∧ w2.names = w.names ∧ w2.heap = w.heap ∧ w2.fds = w.fds
      ∧ (lookupFd w m.fd = none ∨ fo.fchmod ≠ none ∨ (ds = true ∧ fo.fdatasync ≠ none)
          ∨ fo.close ≠ none)
      ∧ w2.trace = w.trace ++ evs ∧ evs.filter Event.is_heap_call = []
      ∧ evs.filter Event.is_unlink = [])
    ∨ (∃ w2, mcdb_makefn_finish m ds fo w = (-1, { m with fd := -2 }, w2)
      ∧ w2.names = w.names ∧ w2.heap = w.heap
      ∧ w2.fds = Function.update w.fds m.fd.toNat none ∧ lookupFd w m.fd ≠ none
      ∧ w2.trace = w.trace ++ ⟨.fchmod m.fd m.st_mode, 0⟩
          :: ((if ds then [⟨.fdatasync m.fd, 0⟩] else [])
            ++ [⟨.close m.fd, 0⟩, ⟨.rename m.fntmp m.fname, -1⟩])
      ∧ (fo.rename = none → ∀ o n, readCStr w.heap m.fntmp = some o →
          readCStr w.heap m.fname = some n → w.names o = none))
    ∨ (∃ w2 ino o n i, mcdb_makefn_finish m ds fo w = (0, { m with fd := -1 }, w2)
      ∧ lookupFd w m.fd = some ino ∧ w2.heap = w.heap
      ∧ w2.fds = Function.update w.fds m.fd.toNat none
      ∧ w2.inodes = Function.update w.inodes ino
          ((w.inodes ino).map fun old =>
            (old &&& S_IFMT) ||| applied_perm m.st_mode fo.fchmod_clears_sgid)
      ∧ readCStr w.heap m.fntmp = some o ∧ readCStr w.heap m.fname = some n
      ∧ w.names o = some i ∧ w2.names n = some i
      ∧ (n ≠ o → w.names n ≠ some i → w2.names o = none)
      ∧ (∀ p, p ≠ o → p ≠ n → w2.names p = w.names p)
      ∧ w2.trace = w.trace ++ ⟨.fchmod m.fd m.st_mode, 0⟩
          :: ((if ds then [⟨.fdatasync m.fd, 0⟩] else [])
            ++ [⟨.close m.fd, 0⟩, ⟨.rename m.fntmp m.fname, 0⟩])) := by
  rcases sys_fchmod_cases m.fd m.st_mode fo.fchmod fo.fchmod_clears_sgid w with
    ⟨e1, h1, hr1⟩ | ⟨w1, ino, h1, hl1, hj1, hi1, ht1, he1, hn1, hf1, hh1, hu1⟩
  · refine Or.inl ⟨w.fail (.fchmod m.fd m.st_mode) e1, [⟨.fchmod m.fd m.st_mode, -1⟩],
      ?_, rfl, rfl, rfl, ?_, rfl, by
      simp [List.filter_cons, Event.is_heap_call], by simp [List.filter_cons, Event.is_unlink]⟩
    · simp [mcdb_makefn_finish, h1]
    · rcases hr1 with h | h
      · exact Or.inl h
      · exact Or.inr (Or.inl h)
  · -- the optional fdatasync step
    have hd : (∃ e2, (if ds then sys_fdatasync m.fd fo.fdatasync w1 else (0, w1))
          = (-1, w1.fail (.fdatasync m.fd) e2) ∧ ds = true
          ∧ (lookupFd w m.fd = none ∨ fo.fdatasync ≠ none))
        ∨ (∃ wd, (if ds then sys_fdatasync m.fd fo.fdatasync w1 else (0, w1)) = (0, wd)
          ∧ wd.trace = w1.trace ++ (if ds then [⟨.fdatasync m.fd, 0⟩] else [])
          ∧ wd.names = w1.names ∧ wd.inodes = w1.inodes ∧ wd.fds = w1.fds
          ∧ wd.heap = w1.heap) := by
      cases ds
      · exact Or.inr ⟨w1, by simp, by simp, rfl, rfl, rfl, rfl⟩
      · rcases sys_fdatasync_cases m.fd fo.fdatasync w1 with
          ⟨e2, h2, hr2⟩ | ⟨w2, h2, -, -, ht2, -, hn2, hi2, hf2, hh2, -⟩
        · rw [lookupFd_congr w1 w m.fd hf1] at hr2
          exact Or.inl ⟨e2, by simp [h2], rfl, hr2⟩
        · exact Or.inr ⟨w2, by simp [h2], by simp [ht2], hn2, hi2, hf2, hh2⟩
    rcases hd with ⟨e2, h2, hds, hr2⟩ | ⟨wd, h2, htd, hnd, hid, hfd, hhd⟩
    · refine Or.inl ⟨w1.fail (.fdatasync m.fd) e2,
        [⟨.fchmod m.fd m.st_mode, 0⟩, ⟨.fdatasync m.fd, -1⟩], ?_, ?_, ?_, ?_,
        ?_, ?_, by simp [List.filter_cons, Event.is_heap_call],
        by simp [List.filter_cons, Event.is_unlink]⟩
      · simp [mcdb_makefn_finish, h1, h2]
      · simp [World.fail, hn1]
      · simp [World.fail, hh1]
      · simp [World.fail, hf1]
      · rcases hr2 with h | h
        · exact Or.inl h
        · exact Or.inr (Or.inr (Or.inl ⟨hds, h⟩))
      · simp [World.fail, ht1]
    · rcases nointr_close_cases m.fd fo.close wd with
        ⟨e3, h3, hr3⟩ | ⟨w3, h3, hl3, -, ht3, hf3, -, hn3, hi3, hh3, -⟩
      · refine Or.inl ⟨wd.fail (.close m.fd) e3, ⟨.fchmod m.fd m.st_mode, 0⟩
            :: ((if ds then [⟨.fdatasync m.fd, 0⟩] else []) ++ [⟨.close m.fd, -1⟩]),
          ?_, ?_, ?_, ?_, ?_, ?_, ?_, ?_⟩
        · simp [mcdb_makefn_finish, h1, h2, h3]
        · simp [World.fail, hn1, hnd]
        · simp [World.fail, hh1, hhd]
        · simp [World.fail, hf1, hfd]
        · rw [lookupFd_congr wd w m.fd (hfd.trans hf1)] at hr3
          rcases hr3 with h | h
          · exact Or.inl h
          · exact Or.inr (Or.inr (Or.inr h))
        · simp [World.fail, ht1, htd]
        · cases ds <;> simp [List.filter_cons, Event.is_heap_call]
        · cases ds <;> simp [List.filter_cons, Event.is_unlink]
      · rw [lookupFd_congr wd w m.fd (hfd.trans hf1)] at hl3
        rcases sys_rename_cases m.fntmp m.fname fo.rename w3 with
          ⟨e4, h4, hr4⟩ |
          ⟨w4, o, n, i, h4, -, ho4, hn4, hio, hin, hgone, hframe, ht4, -, hi4, hf4, hh4, -⟩
        · refine Or.inr (Or.inl ⟨w3.fail (.rename m.fntmp m.fname) e4,
            ?_, ?_, ?_, ?_, hl3, ?_, ?_⟩)
          · simp [mcdb_makefn_finish, h1, h2, h3, h4]
          · simp [World.fail, hn1, hnd, hn3]
          · simp [World.fail, hh1, hhd, hh3]
          · simp [World.fail, hf1, hfd, hf3]
          · simp [World.fail, ht1, htd, ht3]
          · rw [hh3, hhd, hh1, hn3, hnd, hn1] at hr4
            exact hr4
        · rw [hh3, hhd, hh1] at ho4 hn4
          rw [hn3, hnd, hn1] at hio hgone hframe
          refine Or.inr (Or.inr ⟨w4, ino, o, n, i, ?_, hl1, ?_, ?_, ?_, ho4, hn4, hio, hin,
            hgone, hframe, ?_⟩)
          · simp [mcdb_makefn_finish, h1, h2, h3, h4, EXIT_SUCCESS]
          · simp [hh4, hh1, hhd, hh3]
          · simp [hf4, hf1, hfd, hf3]
          · simp [hi4, hi1, hid, hi3]
          · simp [ht4, ht1, htd, ht3]

theorem lookupFd_natCast (w : World) (fd : Nat) : lookupFd w (fd : Int) = w.fds fd := by
  simp [lookupFd]

theorem tmp_ne (P sfx : List Byte) : P ≠ P ++ 46 :: sfx := by
  intro h
  have := congrArg List.length h
  simp at this

/-- Cleanup on a context that holds a path buffer and whose descriptor field is
-1. -/
theorem cleanup_installed (m : mcdb_make) (co : CleanupChoices) (w : World) (p : Ptr)
    (hp : m.fntmp = some p) (hfd : m.fd = -1) :
    ∃ w3, mcdb_makefn_cleanup m co w = (-1, { m with fntmp := none }, w3)
      ∧ w3.trace = w.trace ++ [⟨.free m.fn_free (some p), 0⟩]
      ∧ w3.names = w.names ∧ w3.inodes = w.inodes ∧ w3.fds = w.fds
      ∧ w3.heap = if p.off = 0 then Function.update w.heap p.block none else w.heap := by
  refine ⟨(mcdb_makefn_cleanup m co w).2.2, ?_, ?_, ?_, ?_, ?_, ?_⟩ <;>
    by_cases he : w.errno = 0 <;>
    simp [mcdb_makefn_cleanup, hp, hfd, he, call_free]


theorem trace_ext_trans {a b c : List Event} (h1 : ∃ x, b = a ++ x) (h2 : ∃ y, c = b ++ y) :
    ∃ z, c = a ++ z := by
  obtain ⟨x, rfl⟩ := h1
  obtain ⟨y, rfl⟩ := h2
  exact ⟨x ++ y, List.append_assoc _ _ _⟩

theorem trace_ext4 {t a x1 x2 x3 x4 : List Event} (h : t = a ++ x1 ++ x2 ++ x3 ++ x4) :
    ∃ z, t = a ++ z :=
  ⟨x1 ++ (x2 ++ (x3 ++ x4)), by rw [h]; simp only [List.append_assoc]⟩

theorem trace_ext5 {t a x1 x2 x3 x4 x5 : List Event}
    (h : t = a ++ x1 ++ x2 ++ x3 ++ x4 ++ x5) : ∃ z, t = a ++ z :=
  ⟨x1 ++ (x2 ++ (x3 ++ (x4 ++ x5))), by rw [h]; simp only [List.append_assoc]⟩

/-- Start returns whenever `2*len+9` fits `size_t`. -/
theorem start_defined (cfg : Config) (m : mcdb_make) (fname : List Byte)
    (fm ff : Nat) (o : StartChoices) (w : World)
    (hsz : 2 * (c_string fname).length + 9 < 2 ^ cfg.size_bits) :
    ∃ r m1 w1, mcdb_makefn_start cfg m fname fm ff o w = some (r, m1, w1) := by
  rcases start_stat_cases cfg m fname fm ff o w with
    ⟨e, _, _, hs⟩ | ⟨mode, _, _, _, hs⟩ | ⟨st, rs, ws, hs, -⟩
  · exact ⟨_, _, _, hs⟩
  · exact ⟨_, _, _, hs⟩
  · rcases start_create_cases cfg { m with head0 := none, fntmp := none, fd := -1 }
        fname st fm ff o ws with
      ⟨wa, hc, -⟩ | ⟨-, hlt⟩ | ⟨b, e, wc, -, -, -, hc, -⟩ |
      ⟨b, fd, ino, sfx, wd, -, -, -, -, -, -, -, -, -, hc, -⟩
    · exact ⟨_, _, _, hs.trans hc⟩
    · rw [alloc_size_eq cfg _ hsz] at hlt; exact absurd hlt (lt_irrefl _)
    · exact ⟨_, _, _, hs.trans hc⟩
    · exact ⟨_, _, _, hs.trans hc⟩

/-- The context Start leaves: empty on failure, descriptor and path present on
success; the trace only grows. -/
theorem start_ctx (cfg : Config) (m : mcdb_make) (fname : List Byte)
    (fm ff : Nat) (o : StartChoices) (w : World) (r : Int) (m1 : mcdb_make) (w1 : World)
    (h : mcdb_makefn_start cfg m fname fm ff o w = some (r, m1, w1)) :
    ((m1.fd = -1 ∧ m1.fntmp = none) ∨ (0 ≤ m1.fd ∧ m1.fntmp ≠ none))
    ∧ ∃ evs, w1.trace = w.trace ++ evs := by
  rcases start_stat_cases cfg m fname fm ff o w with
    ⟨e, _, _, hs⟩ | ⟨mode, _, _, _, hs⟩ | ⟨st, rs, ws, hs, hts, -⟩
  · rw [hs] at h
    simp only [Option.some.injEq, Prod.mk.injEq] at h
    obtain ⟨-, rfl, rfl⟩ := h
    exact ⟨Or.inl ⟨rfl, rfl⟩, _, rfl⟩
  · rw [hs] at h
    simp only [Option.some.injEq, Prod.mk.injEq] at h
    obtain ⟨-, rfl, rfl⟩ := h
    exact ⟨Or.inl ⟨rfl, rfl⟩, _, rfl⟩
  · rw [hs] at h
    rcases start_create_cases cfg { m with head0 := none, fntmp := none, fd := -1 }
        fname st fm ff o ws with
      ⟨wa, hc, -, ht, -⟩ | ⟨hc, -⟩ | ⟨b, e, wc, -, -, -, hc, -, -, ht, -⟩ |
      ⟨b, fd, ino, sfx, wd, -, -, -, -, -, -, -, -, -, hc, ht, -⟩
    · rw [hc] at h
      simp only [Option.some.injEq, Prod.mk.injEq] at h
      obtain ⟨-, rfl, rfl⟩ := h
      exact ⟨Or.inl ⟨rfl, rfl⟩, trace_ext_trans ⟨_, hts⟩ ⟨_, ht⟩⟩
    · rw [hc] at h; simp at h
    · rw [hc] at h
      simp only [Option.some.injEq, Prod.mk.injEq] at h
      obtain ⟨-, rfl, rfl⟩ := h
      exact ⟨Or.inl ⟨rfl, rfl⟩, trace_ext_trans ⟨_, hts⟩ (trace_ext5 ht)⟩
    · rw [hc] at h
      simp only [Option.some.injEq, Prod.mk.injEq] at h
      obtain ⟨-, rfl, rfl⟩ := h
      exact ⟨Or.inr ⟨by simp, by simp⟩, trace_ext_trans ⟨_, hts⟩ (trace_ext4 ht)⟩

theorem lookupFd_nonneg (w : World) (fd : Int) (h : lookupFd w fd ≠ none) : 0 ≤ fd := by
  by_contra hneg
  have : fd < 0 := by omega
  simp [lookupFd, this] at h

theorem sys_unlink_trace (p : Option Ptr) (inj : Option Int) (w : World) :
    (sys_unlink p inj w).2.trace = w.trace ++ [⟨.unlink p, (sys_unlink p inj w).1⟩] := by
  rcases sys_unlink_cases p inj w with ⟨e, h, -⟩ | ⟨w1, path, h, -, -, ht, -⟩
  · rw [h]; rfl
  · rw [h]; exact ht

theorem nointr_close_trace (fd : Int) (inj : Option Int) (w : World) :
    (nointr_close fd inj w).2.trace = w.trace ++ [⟨.close fd, (nointr_close fd inj w).1⟩] := by
  rcases nointr_close_cases fd inj w with ⟨e, h, -⟩ | ⟨w1, h, -, -, ht, -⟩
  · rw [h]; rfl
  · rw [h]; exact ht

theorem cleanup_trace (m : mcdb_make) (co : CleanupChoices) (w : World) :
    ∃ evs, (mcdb_makefn_cleanup m co w).2.2.trace = w.trace ++ evs := by
  unfold mcdb_makefn_cleanup
  by_cases h1 : m.fd = -1 <;> by_cases h2 : m.fntmp = none <;> by_cases h3 : 0 ≤ m.fd <;>
    by_cases h4 : w.errno = 0 <;>
    simp [h1, h2, h3, h4, call_free, sys_unlink_trace, nointr_close_trace]


theorem ex_started_eq :
    mcdb_makefn_start ex_cfg ex_ctx ex_path 11 12 ex_start_ok ex_world = some ex_started := by
  rfl


theorem cleanup_fd (m : mcdb_make) (o : CleanupChoices) (w : World) :
    (mcdb_makefn_cleanup m o w).2.1.fd = -1 := by
  unfold mcdb_makefn_cleanup
  by_cases h1 : m.fd = -1 <;> by_cases h2 : m.fntmp = none <;> simp [h1, h2]

theorem cleanup_fntmp (m : mcdb_make) (o : CleanupChoices) (w : World) :
    (mcdb_makefn_cleanup m o w).2.1.fntmp = none := by
  unfold mcdb_makefn_cleanup
  by_cases h1 : m.fd = -1 <;> by_cases h2 : m.fntmp = none <;> simp [h1, h2]

theorem cleanup_of_empty (m : mcdb_make) (o : CleanupChoices) (w : World)
    (h1 : m.fd = -1) (h2 : m.fntmp = none) :
    mcdb_makefn_cleanup m o w = (-1, m, w) := by
  unfold mcdb_makefn_cleanup
  by_cases h : w.errno = 0 <;> simp [h1, h2, h]

theorem ex_started_zero : (0, ex_started.2.1, ex_started.2.2) = ex_started := by rfl

/-- The calls of Start when `2*len+9` fits `size_t`: every allocator request is
for `2*len+9` bytes and the copies, when made, are those of `copy_events`. -/
theorem start_layout_core (cfg : Config) (m : mcdb_make) (fname : List Byte)
    (fm ff : Nat) (o : StartChoices) (w : World)
    (h0 : (0 : Nat) ∉ fname) (hsz : 2 * fname.length + 9 < 2 ^ cfg.size_bits) :
    ∃ r m1 w1 evs, mcdb_makefn_start cfg m fname fm ff o w = some (r, m1, w1)
      ∧ w1.trace = w.trace ++ evs
      ∧ (∀ e ∈ evs, ∀ f sz p, e.call = Call.malloc f sz p →
          f = fm ∧ sz = 2 * fname.length + 9)
      ∧ (evs.filter Event.is_memcpy = []
        ∨ ∃ b, ⟨Call.malloc fm (2 * fname.length + 9) (some ⟨b, 0⟩), 0⟩ ∈ evs
            ∧ evs.filter Event.is_memcpy = copy_events b fname)
      ∧ (∀ b, ((copy_events b fname).flatMap Event.writes).map (fun x => x.1)
          = (List.range (2 * fname.length + 9)).map (fun i => (⟨b, i⟩ : Ptr)))
      ∧ (∀ b, ((copy_events b fname).flatMap Event.writes).map (fun x => x.2)
          = fname ++ [46, 88, 88, 88, 88, 88, 88, 0] ++ fname ++ [0])
      ∧ (r = 0 → ∃ b fd ino sfx, o.mkstemp = .ok fd ino sfx
          ∧ evs.filter Event.is_memcpy = copy_events b fname
          ∧ m1.fntmp = some ⟨b, 0⟩ ∧ m1.fname = some ⟨b, fname.length + 8⟩
          ∧ readCStr w1.heap m1.fname = some fname
          ∧ readCStr w1.heap m1.fntmp = some (fname ++ 46 :: sfx)
          ∧ sfx.length = 6
          ∧ (fname ++ 46 :: sfx).length + 1 ≤ fname.length + 8) := by
  have hP := c_string_of_no_nul fname h0
  have hw1 : ∀ b, ((copy_events b fname).flatMap Event.writes).map (fun x => x.1)
      = (List.range (2 * fname.length + 9)).map (fun i => (⟨b, i⟩ : Ptr)) := by
    intro b
    rw [copy_events_writes, writes_from_addr, List.range_eq_range']
    congr 2
    simp [suffix_template]; omega
  have hw2 : ∀ b, ((copy_events b fname).flatMap Event.writes).map (fun x => x.2)
      = fname ++ [46, 88, 88, 88, 88, 88, 88, 0] ++ fname ++ [0] := by
    intro b
    rw [copy_events_writes, writes_from_val]
    simp [suffix_template]
  rcases start_stat_cases cfg m fname fm ff o w with
    ⟨e, _, _, hs⟩ | ⟨mode, _, _, _, hs⟩ |
    ⟨st, rs, ws, hs, hts, hns, his, hfs, hhs, hus, hcase⟩
  · exact ⟨_, _, _, [⟨.stat (c_string fname), -1⟩], hs, rfl, by simp,
      Or.inl (by simp [List.filter_cons, Event.is_memcpy]), hw1, hw2, by simp⟩
  · exact ⟨_, _, _, [⟨.stat (c_string fname), 0⟩], hs, rfl, by simp,
      Or.inl (by simp [List.filter_cons, Event.is_memcpy]), hw1, hw2, by simp⟩
  · rcases start_create_cases cfg { m with head0 := none, fntmp := none, fd := -1 }
        fname st fm ff o ws with
      ⟨wa, hc, _, hta, _⟩ | ⟨hc, hlt⟩ |
      ⟨b, e, wc, _, _, _, hc, _, _, htc, _⟩ |
      ⟨b, fd, ino, sfx, wd, _, _, _, _, _, _, _, _, _, hc, _⟩
    · rw [hP] at hta hts
      refine ⟨_, _, _, [⟨.stat fname, rs⟩,
          ⟨.malloc fm (alloc_size cfg fname.length) none, -1⟩], hs.trans hc,
        by rw [hta, hts, List.append_assoc]; rfl, ?_,
        Or.inl (by simp [List.filter_cons, Event.is_memcpy]), hw1, hw2, by simp⟩
      simp [alloc_size_eq cfg _ hsz]
    · rw [hP, alloc_size_eq cfg _ hsz] at hlt; exact absurd hlt (lt_irrefl _)
    · rw [hP] at htc hts
      refine ⟨_, _, _, [⟨.stat fname, rs⟩]
            ++ (⟨.malloc fm (2 * fname.length + 9) (some ⟨b, 0⟩), 0⟩
              :: copy_events b fname
            ++ umask_before cfg w.umask ++ [⟨.mkstemp (some ⟨b, 0⟩), -1⟩]
            ++ umask_after cfg w.umask ++ [⟨.free ff (some ⟨b, 0⟩), 0⟩]), hs.trans hc,
        by rw [htc, hts, hus]; simp only [List.append_assoc], ?_,
        Or.inr ⟨b, by simp, ?_⟩, hw1, hw2, by simp⟩
      · cases hg : cfg.old_glibc <;>
          simp [copy_events, umask_before, umask_after, hg]
      · cases hg : cfg.old_glibc <;>
          simp [copy_events, umask_before, umask_after, hg, List.filter_cons,
            Event.is_memcpy]
    · obtain ⟨m1, w1, hst⟩ : ∃ m1 w1,
          mcdb_makefn_start cfg m fname fm ff o w = some (0, m1, w1) := ⟨_, _, hs.trans hc⟩
      clear hc hs
      obtain ⟨b', fd', ino', sfx', st', rs', hm', hk', _, S⟩ :=
        start_success_inv cfg m fname fm ff o w _ _ _ hst rfl
      have hp := started_paths S
      have hcalls := S.calls
      have hctx := S.ctx
      rw [hP] at hcalls hctx hp
      refine ⟨0, m1, w1,
        ⟨.stat fname, rs'⟩ :: ⟨.malloc fm (2 * fname.length + 9) (some ⟨b', 0⟩), 0⟩
            :: copy_events b' fname
          ++ umask_before cfg w.umask ++ [⟨.mkstemp (some ⟨b', 0⟩), (fd' : Int)⟩]
          ++ umask_after cfg w.umask,
        hst, by rw [hcalls]; simp only [List.append_assoc], ?_,
        Or.inr ⟨b', by simp, ?_⟩, hw1, hw2,
        fun _ => ⟨b', fd', ino', sfx', hk', ?_, by rw [hctx], by rw [hctx], hp.2, hp.1,
          S.sfx_len, by simp [S.sfx_len]⟩⟩
      · cases hg : cfg.old_glibc <;>
          simp [copy_events, umask_before, umask_after, hg]
      · cases hg : cfg.old_glibc <;>
          simp [copy_events, umask_before, umask_after, hg, List.filter_cons,
            Event.is_memcpy]
      · cases hg : cfg.old_glibc <;>
          simp [copy_events, umask_before, umask_after, hg, List.filter_cons,
            Event.is_memcpy]


/-- The two ways `stat` lets Start continue are those `stat_passes` accepts. -/
theorem stat_passes_of_continue (o : StartChoices) (w : World) (path : Path) (st : Nat)
    (rs : Int)
    (h : (rs = -1 ∧ st = S_IRUSR
            ∧ (o.stat = some ENOENT ∨ (o.stat = none ∧ (w.names path).bind w.inodes = none)))
          ∨ (rs = 0 ∧ o.stat = none ∧ (w.names path).bind w.inodes = some st
            ∧ S_ISREG st = true)) :
    stat_passes o w path = true := by
  rcases h with ⟨-, -, h | ⟨h1, h2⟩⟩ | ⟨-, h1, h2, h3⟩
  · simp [stat_passes, h]
  · simp [stat_passes, h1, h2]
  · simp [stat_passes, h1, h2, h3]

/-- How the environment fixes the calls and the result of a Start whose request
for `2*len+9` bytes fits `size_t`. -/
theorem start_ties (cfg : Config) (m : mcdb_make) (fname : List Byte)
    (fm ff : Nat) (o : StartChoices) (w : World) (r : Int) (m1 : mcdb_make) (w1 : World)
    (evs : List Event)
    (h0 : (0 : Nat) ∉ fname) (hsz : 2 * fname.length + 9 < 2 ^ cfg.size_bits)
    (h : mcdb_makefn_start cfg m fname fm ff o w = some (r, m1, w1))
    (ht : w1.trace = w.trace ++ evs) :
    (stat_passes o w fname = false →
        r = -1 ∧ ∃ rs, evs = [⟨.stat fname, rs⟩])
    ∧ (stat_passes o w fname = true →
        ∃ rs p ret, evs.take 2
          = [⟨.stat fname, rs⟩, ⟨.malloc fm (2 * fname.length + 9) p, ret⟩])
    ∧ (stat_passes o w fname = true →
        (o.malloc = none ∨ ∃ b, o.malloc = some b ∧ w.heap b ≠ none) →
        r = -1 ∧ ∃ rs, evs
          = [⟨.stat fname, rs⟩, ⟨.malloc fm (2 * fname.length + 9) none, -1⟩])
    ∧ (∀ b, stat_passes o w fname = true → o.malloc = some b → w.heap b = none →
        (∃ rs, evs.take 5 = ⟨.stat fname, rs⟩
            :: ⟨.malloc fm (2 * fname.length + 9) (some ⟨b, 0⟩), 0⟩ :: copy_events b fname)
        ∧ evs.filter Event.is_memcpy = copy_events b fname)
    ∧ (∀ b fd ino sfx, stat_passes o w fname = true → o.malloc = some b →
        w.heap b = none → o.mkstemp = .ok fd ino sfx → sfx.length = 6 → (0 : Nat) ∉ sfx →
        w.names (fname ++ 46 :: sfx) = none → w.fds fd = none → w.inodes ino = none →
        r = 0 ∧ m1.fntmp = some ⟨b, 0⟩ ∧ m1.fname = some ⟨b, fname.length + 8⟩
        ∧ w1.heap b = some (fname ++ 46 :: sfx ++ 0 :: (fname ++ [0]))
        ∧ readCStr w1.heap m1.fname = some fname
        ∧ readCStr w1.heap m1.fntmp = some (fname ++ 46 :: sfx)
        ∧ (fname ++ 46 :: sfx).length + 1 ≤ fname.length + 8) := by
  have hP := c_string_of_no_nul fname h0
  rcases start_stat_cases cfg m fname fm ff o w with
    ⟨e, he, hne, hs⟩ | ⟨mode, hso, hmode, hreg, hs⟩ |
    ⟨st, rs, ws, hs, hts, hns, his, hfs, hhs, hus, hcase⟩
  · have hsp : stat_passes o w fname = false := by simp [stat_passes, he, hne]
    rw [hs] at h
    simp only [Option.some.injEq, Prod.mk.injEq] at h
    obtain ⟨rfl, rfl, rfl⟩ := h
    have hevs : evs = [⟨.stat fname, -1⟩] := by
      rw [hP] at ht; exact (List.append_cancel_left ht).symm
    simp [hsp, hevs]
  · have hsp : stat_passes o w fname = false := by
      rw [hP] at hmode; simp [stat_passes, hso, hmode, hreg]
    rw [hs] at h
    simp only [Option.some.injEq, Prod.mk.injEq] at h
    obtain ⟨rfl, rfl, rfl⟩ := h
    have hevs : evs = [⟨.stat fname, 0⟩] := by
      rw [hP] at ht; exact (List.append_cancel_left ht).symm
    simp [hsp, hevs]
  · have hcase' : (rs = -1 ∧ st = S_IRUSR
            ∧ (o.stat = some ENOENT
              ∨ (o.stat = none ∧ (w.names fname).bind w.inodes = none)))
          ∨ (rs = 0 ∧ o.stat = none ∧ (w.names fname).bind w.inodes = some st
            ∧ S_ISREG st = true) := by
      rw [hP] at hcase
      rcases hcase with ⟨a, b, -, c⟩ | ⟨a, b, c, d, -⟩
      · exact Or.inl ⟨a, b, c⟩
      · exact Or.inr ⟨a, b, c, d⟩
    have hsp := stat_passes_of_continue o w fname st rs hcase'
    rw [hs] at h
    rcases start_create_cases cfg { m with head0 := none, fntmp := none, fd := -1 }
        fname st fm ff o ws with
      ⟨wa, hc, hf, hta, -⟩ | ⟨hc, hlt⟩ |
      ⟨b, e, wc, hm, hb, -, hc, -, hinv, htc, -⟩ |
      ⟨b, fd, ino, sfx, wd, -, -, -, -, -, -, -, -, -, hc, -⟩
    · rw [hc] at h
      simp only [Option.some.injEq, Prod.mk.injEq] at h
      obtain ⟨rfl, rfl, rfl⟩ := h
      rw [hhs] at hf
      have hevs : evs = [⟨.stat fname, rs⟩,
          ⟨.malloc fm (2 * fname.length + 9) none, -1⟩] := by
        rw [hta, hts, hP, alloc_size_eq cfg _ hsz, List.append_assoc] at ht
        exact (List.append_cancel_left ht).symm
      refine ⟨by simp [hsp], fun _ => ⟨rs, none, -1, by simp [hevs]⟩,
        fun _ _ => ⟨rfl, rs, hevs⟩, ?_, ?_⟩
      · intro b _ hm hb
        rcases hf with hf | ⟨b', hf, hne⟩
        · rw [hm] at hf; cases hf
        · rw [hm] at hf; cases hf; exact absurd hb hne
      · intro b fd ino sfx _ hm hb
        rcases hf with hf | ⟨b', hf, hne⟩
        · rw [hm] at hf; cases hf
        · rw [hm] at hf; cases hf; exact absurd hb hne
    · rw [hP, alloc_size_eq cfg _ hsz] at hlt; exact absurd hlt (lt_irrefl _)
    · rw [hc] at h
      simp only [Option.some.injEq, Prod.mk.injEq] at h
      obtain ⟨rfl, rfl, rfl⟩ := h
      rw [hhs] at hb
      rw [hns, hfs, his, hP] at hinv
      have hevs : evs = ⟨.stat fname, rs⟩
          :: ⟨.malloc fm (2 * fname.length + 9) (some ⟨b, 0⟩), 0⟩ :: (copy_events b fname
          ++ (umask_before cfg w.umask ++ ([⟨.mkstemp (some ⟨b, 0⟩), -1⟩]
          ++ (umask_after cfg w.umask ++ [⟨.free ff (some ⟨b, 0⟩), 0⟩])))) := by
        rw [htc, hts, hus, hP] at ht
        simp only [List.append_assoc, List.singleton_append, List.cons_append] at ht
        exact (List.append_cancel_left ht).symm
      refine ⟨by simp [hsp], fun _ => ⟨rs, some ⟨b, 0⟩, 0, by simp [hevs]⟩, ?_, ?_, ?_⟩
      · rintro - (hf | ⟨b', hf, hne⟩)
        · rw [hm] at hf; cases hf
        · rw [hm] at hf; cases hf; exact absurd hb hne
      · intro b' _ hm' _
        rw [hm] at hm'; cases hm'
        refine ⟨⟨rs, by simp [hevs, copy_events]⟩, ?_⟩
        rw [hevs]
        cases hg : cfg.old_glibc <;>
          simp [copy_events, umask_before, umask_after, hg, List.filter_cons,
            Event.is_memcpy]
      · intro b' fd ino sfx _ _ _ hk h1 h2 h3 h4 h5
        exact absurd ⟨h1, h2, h3, h4, h5⟩ (hinv fd ino sfx hk)
    · obtain ⟨hst⟩ : Nonempty (mcdb_makefn_start cfg m fname fm ff o w
          = some (r, m1, w1)) := ⟨by rw [hs]; exact h⟩
      have hr : r = 0 := by
        rw [hc] at h
        simp only [Option.some.injEq, Prod.mk.injEq] at h
        exact h.1.symm
      clear hc h hs
      obtain ⟨b', fd', ino', sfx', st', rs', hm', hk', -, S⟩ :=
        start_success_inv cfg m fname fm ff o w _ _ _ hst hr
      have hp := started_paths S
      have hcalls := S.calls
      have hctx := S.ctx
      have hheap := S.heap
      have hfresh := S.heap_fresh
      rw [hP] at hcalls hctx hp hheap
      have hevs : evs = ⟨.stat fname, rs'⟩
          :: ⟨.malloc fm (2 * fname.length + 9) (some ⟨b', 0⟩), 0⟩ :: (copy_events b' fname
          ++ (umask_before cfg w.umask ++ ([⟨.mkstemp (some ⟨b', 0⟩), (fd' : Int)⟩]
          ++ umask_after cfg w.umask))) := by
        rw [hcalls] at ht
        simp only [List.append_assoc, List.singleton_append, List.cons_append] at ht
        exact (List.append_cancel_left ht).symm
      refine ⟨by simp [hsp], fun _ => ⟨rs', some ⟨b', 0⟩, 0, by simp [hevs]⟩, ?_, ?_, ?_⟩
      · rintro - (hf | ⟨b'', hf, hne⟩)
        · rw [hm'] at hf; cases hf
        · rw [hm'] at hf; cases hf; exact absurd hfresh hne
      · intro b'' _ hm'' _
        rw [hm'] at hm''; cases hm''
        refine ⟨⟨rs', by simp [hevs, copy_events]⟩, ?_⟩
        rw [hevs]
        cases hg : cfg.old_glibc <;>
          simp [copy_events, umask_before, umask_after, hg, List.filter_cons,
            Event.is_memcpy]
      · intro b'' fd ino sfx _ hm'' _ hk _ _ _ _ _
        rw [hm'] at hm''; cases hm''
        rw [hk'] at hk; cases hk
        exact ⟨hr, by rw [hctx], by rw [hctx], by rw [hheap]; simp, hp.2, hp.1,
          by simp [S.sfx_len]⟩
/-! ## The claims -/

/-- C1, counterexample: `"x"` is a regular file of mode 02755; every call of
Start and Finish succeeds, and the successful `fchmod` turns the
set-group-ID bit off, as the kernel does for a caller that is not in the
file's group.  Start and Finish both return 0 and the file installed at
`"x"` has mode 0100755, not the mode 0102755 of the file it replaces. -/
theorem start_finish_drops_setgid :
    ex_world_sgid.names ex_path = some 4
    ∧ ex_world_sgid.inodes 4 = some (S_IFREG ||| 0o2755)
    ∧ mcdb_makefn_start ex_cfg ex_ctx ex_path 11 12 ex_start_ok ex_world_sgid
        = some ex_sgid_started
    ∧ ex_sgid_started.1 = 0
    ∧ ex_sgid_finished.1 = 0
    ∧ ex_sgid_finished.2.2.trace.map Event.ret = [0, 0, 0, 0, 0, 3, 0, 0, 0, 0]
    ∧ ex_sgid_finished.2.2.names ex_path = some 5
    ∧ ex_sgid_finished.2.2.inodes 5 = some 0o100755
    ∧ ex_sgid_finished.2.2.inodes 5 ≠ some (S_IFREG ||| 0o2755) :=
  ⟨by decide, by decide, by rfl, by decide, by decide, by decide, by decide, by decide,
    by decide⟩

/-- C1, amended: over an environment in which every call succeeds (no failure
is injected, the allocator hands out a fresh block `b`, `mkstemp` picks an
unused descriptor `fd`, an unused inode `ino` and a six-character suffix `sfx`
whose name does not exist), for every final path `fname` (a C string whose
`2*len+9` fits `size_t`) `mcdb_makefn_start` returns 0 and creates inode `ino`
under the temp name, open at `fd`; the following `mcdb_makefn_finish`, with
`datasync` true or false, returns 0, and afterwards the final path names that
same inode `ino` and nothing is left under the temp name.  The installed file
is a regular file whose permission bits are `perm`, which is `S_IRUSR` when
nothing existed at the path before Start and the permission bits of the
regular file that existed there otherwise, except that the set-group-ID bit
of `perm` is off when the successful `fchmod` turns it off; so the bits are
exactly `perm` whenever `fchmod` keeps that bit or `perm` does not have
it, as is the case for `S_IRUSR`. -/
theorem start_finish_installs (cfg : Config) (m : mcdb_make) (fname : List Byte)
    (fm ff : Nat) (o : StartChoices) (fo : FinishChoices) (datasync : Bool) (w : World)
    (b fd ino : Nat) (sfx : List Byte) (perm : Nat)
    (h0 : (0 : Nat) ∉ fname) (hsz : 2 * fname.length + 9 < 2 ^ cfg.size_bits)
    (hstat : o.stat = none) (hmalloc : o.malloc = some b) (hb : w.heap b = none)
    (hmk : o.mkstemp = .ok fd ino sfx) (h1 : sfx.length = 6) (h2 : (0 : Nat) ∉ sfx)
    (h3 : w.names (fname ++ 46 :: sfx) = none) (h4 : w.fds fd = none)
    (h5 : w.inodes ino = none)
    (hfo : fo.fchmod = none ∧ fo.fdatasync = none ∧ fo.close = none ∧ fo.rename = none)
    (hP : (w.names fname = none ∧ perm = S_IRUSR)
      ∨ (∃ i, w.names fname = some i ∧ w.inodes i = some (S_IFREG ||| perm)
          ∧ perm ≤ 0o7777)) :
    ∃ m1 w1 m2 w2,
      mcdb_makefn_start cfg m fname fm ff o w = some (0, m1, w1)
      ∧ m1.fd = (fd : Int) ∧ w1.fds fd = some ino
      ∧ w1.names (fname ++ 46 :: sfx) = some ino
      ∧ mcdb_makefn_finish m1 datasync fo w1 = (0, m2, w2)
      ∧ w2.names fname = some ino
      ∧ w2.inodes ino = some (S_IFREG |||
          (if fo.fchmod_clears_sgid then perm &&& (S_PERM ^^^ S_ISGID) else perm))
      ∧ (fo.fchmod_clears_sgid = false ∨ perm &&& S_ISGID = 0 →
          w2.inodes ino = some (S_IFREG ||| perm))
      ∧ w2.names (fname ++ 46 :: sfx) = none := by
  have hc := c_string_of_no_nul fname h0
  have hbind : ∀ mode, (w.names (c_string fname)).bind w.inodes = some mode →
      S_ISREG mode = true := by
    intro mode hm
    rw [hc] at hm
    rcases hP with ⟨hn, _⟩ | ⟨i, hn, hi, hp⟩
    · simp [hn] at hm
    · simp [hn, hi] at hm
      subst hm
      exact S_ISREG_reg_or perm hp
  obtain ⟨m1, w1, hst⟩ := start_success_fwd cfg m fname fm ff o w b fd ino sfx
    (by rw [hc]; exact hsz) ⟨hstat, hbind⟩ hmalloc hb hmk h1 h2 (by rw [hc]; exact h3) h4 h5
  obtain ⟨b', fd', ino', sfx', st, rs, hm', hk', hcase, S⟩ :=
    start_success_inv cfg m fname fm ff o w _ _ _ hst rfl
  rw [hmalloc] at hm'
  rw [hmk] at hk'
  cases hm'
  cases hk'
  have hp := started_paths S
  rw [hc] at hp hcase
  have hnames := S.names
  have hctx := S.ctx
  rw [hc] at hnames
  have hfdm : m1.fd = (fd : Int) := by rw [hctx]
  have hstm : m1.st_mode = st := by rw [hctx]
  have hfd1 : w1.fds fd = some ino := by rw [S.fds]; simp
  have hn1 : w1.names (fname ++ 46 :: sfx) = some ino := by rw [hnames]; simp
  have hnP : w1.names fname = w.names fname := by
    rw [hnames]; exact Function.update_noteq (tmp_ne fname sfx) _ _
  have hne : w.names fname ≠ some ino := by
    rcases hP with ⟨hn, _⟩ | ⟨i, hn, hi, _⟩
    · simp [hn]
    · rw [hn]
      intro h
      cases h
      rw [h5] at hi
      cases hi
  have hperm : perm ≤ 0o7777 := by
    rcases hP with ⟨_, hp⟩ | ⟨_, _, _, hp⟩
    · rw [hp]; decide
    · exact hp
  have hst_perm : applied_perm st fo.fchmod_clears_sgid
      = if fo.fchmod_clears_sgid then perm &&& (S_PERM ^^^ S_ISGID) else perm := by
    rcases hP with ⟨hn, hp⟩ | ⟨i, hn, hi, hp⟩
    · rcases hcase with ⟨_, hs, _⟩ | ⟨_, _, hb, _⟩
      · rw [hs, hp]; exact applied_perm_irusr _
      · simp [hn] at hb
    · rcases hcase with ⟨_, _, hs | ⟨_, hb⟩⟩ | ⟨_, _, hb, _⟩
      · rw [hstat] at hs; cases hs
      · simp [hn, hi] at hb
      · simp [hn, hi] at hb
        rw [← hb]
        exact applied_perm_reg perm _ hp
  rcases finish_spec m1 datasync fo w1 with
    ⟨w2, evs, _, _, _, _, hr, _⟩ | ⟨w2, _, hn2, hh2, _, _, _, hr⟩ |
    ⟨w2, ino', o', n', i', hfin, hl, _, _, hi2, ho, hn, hio, hin, hgone, _, _⟩
  · rw [hfdm, lookupFd_natCast, hfd1] at hr
    rcases hr with h | h | ⟨_, h⟩ | h
    · cases h
    · exact absurd hfo.1 h
    · exact absurd hfo.2.1 h
    · exact absurd hfo.2.2.1 h
  · have := hr hfo.2.2.2 _ _ hp.1 hp.2
    rw [hn1] at this
    cases this
  · rw [hp.1] at ho
    rw [hp.2] at hn
    cases ho
    cases hn
    rw [hn1] at hio
    cases hio
    rw [hfdm, lookupFd_natCast, hfd1] at hl
    cases hl
    have hmode : w2.inodes ino = some (S_IFREG |||
        (if fo.fchmod_clears_sgid then perm &&& (S_PERM ^^^ S_ISGID) else perm)) := by
      rw [hi2, S.inodes, hstm]
      simp [created_mode_fmt, hst_perm]
    refine ⟨m1, w1, _, w2, hst, hfdm, hfd1, hn1, hfin, hin, hmode, ?_,
      hgone (tmp_ne fname sfx) (by rw [hnP]; exact hne)⟩
    rintro (hcl | hg)
    · rw [hmode, hcl]; simp
    · rw [hmode, and_without_sgid perm hperm hg]; simp

theorem start_finish_installs_witness :
    ∃ m1 w1 m2 w2,
      mcdb_makefn_start ex_cfg ex_ctx ex_path 11 12 ex_start_ok ex_world_sgid
        = some (0, m1, w1)
      ∧ m1.fd = ((3 : Nat) : Int) ∧ w1.fds 3 = some 5
      ∧ w1.names (ex_path ++ 46 :: ex_sfx) = some 5
      ∧ mcdb_makefn_finish m1 true ex_finish_sgid w1 = (0, m2, w2)
      ∧ w2.names ex_path = some 5
      ∧ w2.inodes 5 = some (S_IFREG |||
          (if ex_finish_sgid.fchmod_clears_sgid then 0o2755 &&& (S_PERM ^^^ S_ISGID)
            else 0o2755))
      ∧ (ex_finish_sgid.fchmod_clears_sgid = false ∨ 0o2755 &&& S_ISGID = 0 →
          w2.inodes 5 = some (S_IFREG ||| 0o2755))
      ∧ w2.names (ex_path ++ 46 :: ex_sfx) = none :=
  start_finish_installs ex_cfg ex_ctx ex_path 11 12 ex_start_ok ex_finish_sgid true
    ex_world_sgid 7 3 5 ex_sfx 0o2755 (by decide) (by decide) rfl rfl rfl rfl (by decide)
    (by decide) (by decide) rfl rfl ⟨rfl, rfl, rfl, rfl⟩
    (Or.inr ⟨4, by decide, by decide, by decide⟩)

/-- C4: for every input, every initial context and every outcome of the
calls, if `mcdb_makefn_start` returns a non-zero value then it returns -1,
the descriptor field is -1 and the temp-path field NULL, the names, inodes,
open descriptors and live heap blocks are what they were before the call (no
temp file exists), and the allocator and release calls made are none, or one
failed allocation, or one allocation followed by one release of that very
buffer through the injected release function.  Moreover, when `stat` fails
with an error other than `ENOENT`, Start returns -1 having called only
`stat`, with that error code in `errno`; and when the target exists and is
not a regular file, Start returns -1 having called only `stat`, with `errno`
set to `EINVAL`.  Start does return whenever `2*len+9` fits `size_t`. -/
theorem start_failure_leaves_nothing (cfg : Config) (m : mcdb_make) (fname : List Byte)
    (fm ff : Nat) (o : StartChoices) (w : World) :
    (∀ r m1 w1, mcdb_makefn_start cfg m fname fm ff o w = some (r, m1, w1) → r ≠ 0 →
      r = -1 ∧ m1.fd = -1 ∧ m1.fntmp = none
      ∧ w1.names = w.names ∧ w1.inodes = w.inodes ∧ w1.fds = w.fds ∧ w1.heap = w.heap
      ∧ ∃ evs, w1.trace = w.trace ++ evs
        ∧ (evs.filter Event.is_heap_call = []
          ∨ (∃ sz, evs.filter Event.is_heap_call = [⟨.malloc fm sz none, -1⟩])
          ∨ (∃ sz p, evs.filter Event.is_heap_call
              = [⟨.malloc fm sz (some p), 0⟩, ⟨.free ff (some p), 0⟩])))
    ∧ (∀ e, o.stat = some e → e ≠ ENOENT →
      ∃ m1 w1, mcdb_makefn_start cfg m fname fm ff o w = some (-1, m1, w1)
        ∧ w1.trace = w.trace ++ [⟨.stat (c_string fname), -1⟩] ∧ w1.errno = e)
    ∧ (∀ i mode, o.stat = none → w.names (c_string fname) = some i →
        w.inodes i = some mode → S_ISREG mode = false →
      ∃ m1 w1, mcdb_makefn_start cfg m fname fm ff o w = some (-1, m1, w1)
        ∧ w1.trace = w.trace ++ [⟨.stat (c_string fname), 0⟩] ∧ w1.errno = EINVAL)
    ∧ (2 * (c_string fname).length + 9 < 2 ^ cfg.size_bits →
      ∃ r m1 w1, mcdb_makefn_start cfg m fname fm ff o w = some (r, m1, w1)) := by
  refine ⟨?_, ?_, ?_, start_defined cfg m fname fm ff o w⟩
  · intro r m1 w1 h hr
    rcases start_stat_cases cfg m fname fm ff o w with
      ⟨e, _, _, hs⟩ | ⟨mode, _, _, _, hs⟩ |
      ⟨st, rs, ws, hs, hts, hns, his, hfs, hhs, hus, _⟩
    · rw [hs] at h
      simp only [Option.some.injEq, Prod.mk.injEq] at h
      obtain ⟨rfl, rfl, rfl⟩ := h
      exact ⟨rfl, rfl, rfl, rfl, rfl, rfl, rfl, [⟨.stat (c_string fname), -1⟩], rfl,
        Or.inl rfl⟩
    · rw [hs] at h
      simp only [Option.some.injEq, Prod.mk.injEq] at h
      obtain ⟨rfl, rfl, rfl⟩ := h
      exact ⟨rfl, rfl, rfl, rfl, rfl, rfl, rfl, [⟨.stat (c_string fname), 0⟩], rfl,
        Or.inl rfl⟩
    · rw [hs] at h
      rcases start_create_cases cfg { m with head0 := none, fntmp := none, fd := -1 }
          fname st fm ff o ws with
        ⟨wa, hc, _, hta, _, hna, hia, hfa, hha, _⟩ | ⟨hc, _⟩ |
        ⟨b, e, wc, _, _, _, hc, _, _, htc, _, hnc, hic, hfc, hhc, _⟩ |
        ⟨b, fd, ino, sfx, wd, _, _, _, _, _, _, _, _, _, hc, _⟩
      · rw [hc] at h
        simp only [Option.some.injEq, Prod.mk.injEq] at h
        obtain ⟨rfl, rfl, rfl⟩ := h
        refine ⟨rfl, rfl, rfl, by rw [hna, hns], by rw [hia, his], by rw [hfa, hfs],
          by rw [hha, hhs],
          [⟨.stat (c_string fname), rs⟩,
            ⟨.malloc fm (alloc_size cfg (c_string fname).length) none, -1⟩],
          by rw [hta, hts, List.append_assoc]; rfl,
          Or.inr (Or.inl ⟨alloc_size cfg (c_string fname).length, ?_⟩)⟩
        simp [Event.is_heap_call, List.filter_cons]
      · rw [hc] at h; exact absurd h (by simp)
      · rw [hc] at h
        simp only [Option.some.injEq, Prod.mk.injEq] at h
        obtain ⟨rfl, rfl, rfl⟩ := h
        refine ⟨rfl, rfl, rfl, by rw [hnc, hns], by rw [hic, his], by rw [hfc, hfs],
          by rw [hhc, hhs],
          [⟨.stat (c_string fname), rs⟩]
            ++ (⟨.malloc fm (2 * (c_string fname).length + 9) (some ⟨b, 0⟩), 0⟩
              :: copy_events b (c_string fname)
            ++ umask_before cfg w.umask ++ [⟨.mkstemp (some ⟨b, 0⟩), -1⟩]
            ++ umask_after cfg w.umask ++ [⟨.free ff (some ⟨b, 0⟩), 0⟩]),
          by rw [htc, hts, hus]; simp only [List.append_assoc],
          Or.inr (Or.inr ⟨2 * (c_string fname).length + 9, ⟨b, 0⟩, ?_⟩)⟩
        cases hg : cfg.old_glibc <;>
          simp [Event.is_heap_call, copy_events, umask_before, umask_after, List.filter_cons,
            hg]
      · rw [hc] at h
        simp only [Option.some.injEq, Prod.mk.injEq] at h
        exact absurd h.1.symm hr
  · intro e he hne
    rcases start_stat_cases cfg m fname fm ff o w with
      ⟨e1, he1, _, hs⟩ | ⟨mode, hn, _, _, hs⟩ |
      ⟨st, rs, ws, _, _, _, _, _, _, _, hcase⟩
    · rw [he] at he1
      cases he1
      exact ⟨_, _, hs, rfl, rfl⟩
    · rw [he] at hn; cases hn
    · rcases hcase with ⟨_, _, _, h | ⟨h, _⟩⟩ | ⟨_, h, _⟩
      · rw [he] at h; cases h; exact absurd rfl hne
      · rw [he] at h; cases h
      · rw [he] at h; cases h
  · intro i mode ho hi hmode hreg
    have hb : (w.names (c_string fname)).bind w.inodes = some mode := by simp [hi, hmode]
    rcases start_stat_cases cfg m fname fm ff o w with
      ⟨e1, he1, _, hs⟩ | ⟨mode1, _, _, _, hs⟩ |
      ⟨st, rs, ws, _, _, _, _, _, _, _, hcase⟩
    · rw [ho] at he1; cases he1
    · exact ⟨_, _, hs, rfl, rfl⟩
    · rcases hcase with ⟨_, _, _, h | ⟨_, h⟩⟩ | ⟨_, _, h, hr, _⟩
      · rw [ho] at h; cases h
      · rw [hb] at h; cases h
      · rw [hb] at h; cases h; rw [hreg] at hr; cases hr

theorem start_failure_leaves_nothing_witness :
    ∃ m1 w1, mcdb_makefn_start ex_cfg ex_ctx ex_path 11 12 ex_start_ok ex_world_dir
        = some (-1, m1, w1)
      ∧ w1.trace = ex_world_dir.trace ++ [⟨.stat (c_string ex_path), 0⟩]
      ∧ w1.errno = EINVAL :=
  (start_failure_leaves_nothing ex_cfg ex_ctx ex_path 11 12 ex_start_ok ex_world_dir).2.2.1
    4 (S_IFDIR ||| 0o755) rfl (by decide) (by decide) (by decide)

/-- C5: for every final path `fname` (a C string) of length `len` with
`2*len+9` representable in `size_t`, `mcdb_makefn_start` is defined (no copy
leaves the buffer) and its calls are fixed by the environment.  When `stat`
stops it (an error other than `ENOENT`, or a target that is not a regular
file) it returns -1 having made the `stat` call only.  Otherwise its first
two calls are `stat(fname)` and one request to the injected allocator `fm`
for exactly `2*len+9` bytes, and every allocator request it makes is that
one; when the allocator gives nothing it returns -1 with no further call.
When the allocator returns a fresh buffer `b`, the next three calls, and the
only `memcpy` calls made, are those of `copy_events b fname`, which write the
addresses `0 .. 2*len+8` of the buffer each exactly once, in order, and none
outside, with the bytes `fname`, then `".XXXXXX"` and NUL, then `fname` and
NUL.  When moreover `mkstemp` creates the file with six characters `sfx`,
Start returns 0, the temp-path pointer is the buffer at offset 0, the
final-path pointer is the buffer at offset `len+8`, the buffer holds `fname`,
`'.'`, `sfx`, NUL, `fname`, NUL, so that the final-path view reads `fname`
and the temp path reads `fname.sfx`, and the temp string with its NUL ends
at or before offset `len+8`.  Conversely a Start that returns 0 has this
layout for some buffer and some six characters. -/
theorem start_path_buffer_layout (cfg : Config) (m : mcdb_make) (fname : List Byte)
    (fm ff : Nat) (o : StartChoices) (w : World)
    (h0 : (0 : Nat) ∉ fname) (hsz : 2 * fname.length + 9 < 2 ^ cfg.size_bits) :
    ∃ r m1 w1 evs, mcdb_makefn_start cfg m fname fm ff o w = some (r, m1, w1)
      ∧ w1.trace = w.trace ++ evs
      ∧ (∀ e ∈ evs, ∀ f sz p, e.call = Call.malloc f sz p →
          f = fm ∧ sz = 2 * fname.length + 9)
      ∧ (∀ b, ((copy_events b fname).flatMap Event.writes).map (fun x => x.1)
          = (List.range (2 * fname.length + 9)).map (fun i => (⟨b, i⟩ : Ptr)))
      ∧ (∀ b, ((copy_events b fname).flatMap Event.writes).map (fun x => x.2)
          = fname ++ [46, 88, 88, 88, 88, 88, 88, 0] ++ fname ++ [0])
      ∧ (r = 0 → ∃ b fd ino sfx, o.mkstemp = .ok fd ino sfx
          ∧ evs.filter Event.is_memcpy = copy_events b fname
          ∧ m1.fntmp = some ⟨b, 0⟩ ∧ m1.fname = some ⟨b, fname.length + 8⟩
          ∧ readCStr w1.heap m1.fname = some fname
          ∧ readCStr w1.heap m1.fntmp = some (fname ++ 46 :: sfx)
          ∧ sfx.length = 6
          ∧ (fname ++ 46 :: sfx).length + 1 ≤ fname.length + 8)
      ∧ (stat_passes o w fname = false →
          r = -1 ∧ ∃ rs, evs = [⟨.stat fname, rs⟩])
      ∧ (stat_passes o w fname = true →
          ∃ rs p ret, evs.take 2
            = [⟨.stat fname, rs⟩, ⟨.malloc fm (2 * fname.length + 9) p, ret⟩])
      ∧ (stat_passes o w fname = true →
          (o.malloc = none ∨ ∃ b, o.malloc = some b ∧ w.heap b ≠ none) →
          r = -1 ∧ ∃ rs, evs
            = [⟨.stat fname, rs⟩, ⟨.malloc fm (2 * fname.length + 9) none, -1⟩])
      ∧ (∀ b, stat_passes o w fname = true → o.malloc = some b → w.heap b = none →
          (∃ rs, evs.take 5 = ⟨.stat fname, rs⟩
              :: ⟨.malloc fm (2 * fname.length + 9) (some ⟨b, 0⟩), 0⟩
              :: copy_events b fname)
          ∧ evs.filter Event.is_memcpy = copy_events b fname)
      ∧ (∀ b fd ino sfx, stat_passes o w fname = true → o.malloc = some b →
          w.heap b = none → o.mkstemp = .ok fd ino sfx → sfx.length = 6 →
          (0 : Nat) ∉ sfx → w.names (fname ++ 46 :: sfx) = none → w.fds fd = none →
          w.inodes ino = none →
          r = 0 ∧ m1.fntmp = some ⟨b, 0⟩ ∧ m1.fname = some ⟨b, fname.length + 8⟩
          ∧ w1.heap b = some (fname ++ 46 :: sfx ++ 0 :: (fname ++ [0]))
          ∧ readCStr w1.heap m1.fname = some fname
          ∧ readCStr w1.heap m1.fntmp = some (fname ++ 46 :: sfx)
          ∧ (fname ++ 46 :: sfx).length + 1 ≤ fname.length + 8) := by
  obtain ⟨r, m1, w1, evs, hs, ht, c1, -, c3, c4, c5⟩ :=
    start_layout_core cfg m fname fm ff o w h0 hsz
  exact ⟨r, m1, w1, evs, hs, ht, c1, c3, c4, c5,
    start_ties cfg m fname fm ff o w r m1 w1 evs h0 hsz hs ht⟩

theorem start_path_buffer_layout_witness :
    (0 : Nat) ∉ ex_path ∧ 2 * ex_path.length + 9 < 2 ^ ex_cfg.size_bits
    ∧ ∃ m1 w1 evs,
      mcdb_makefn_start ex_cfg ex_ctx ex_path 11 12 ex_start_ok ex_world = some (0, m1, w1)
      ∧ w1.trace = ex_world.trace ++ evs
      ∧ evs.take 5 = ⟨.stat ex_path, -1⟩ :: ⟨.malloc 11 11 (some ⟨7, 0⟩), 0⟩
          :: copy_events 7 ex_path
      ∧ evs.filter Event.is_memcpy = copy_events 7 ex_path
      ∧ m1.fntmp = some ⟨7, 0⟩ ∧ m1.fname = some ⟨7, 9⟩
      ∧ w1.heap 7 = some (ex_path ++ 46 :: ex_sfx ++ 0 :: (ex_path ++ [0]))
      ∧ readCStr w1.heap m1.fname = some ex_path
      ∧ readCStr w1.heap m1.fntmp = some (ex_path ++ 46 :: ex_sfx) := by
  refine ⟨by decide, by decide, ?_⟩
  obtain ⟨r, m1, w1, evs, hs, ht, -, -, -, -, -, -, -, t4, t5⟩ :=
    start_path_buffer_layout ex_cfg ex_ctx ex_path 11 12 ex_start_ok ex_world
      (by decide) (by decide)
  obtain ⟨hr, f1, f2, f3, f4, f5, -⟩ :=
    t5 7 3 5 ex_sfx rfl rfl rfl rfl rfl (by decide) rfl rfl rfl
  obtain ⟨⟨rs, k1⟩, k2⟩ := t4 7 rfl rfl rfl
  subst hr
  have hrs : rs = -1 := by
    have h2 : w1.trace = (ex_started.2.2).trace := by
      have : mcdb_makefn_start ex_cfg ex_ctx ex_path 11 12 ex_start_ok ex_world
          = some (0, ex_started.2.1, ex_started.2.2) := rfl
      rw [hs] at this
      simp only [Option.some.injEq, Prod.mk.injEq] at this
      rw [this.2.2]
    rw [ht] at h2
    have h3 : evs = (ex_started.2.2).trace := by
      simpa [ex_world] using h2
    rw [h3] at k1
    have h4 : (List.take 5 (ex_started.2.2).trace).head? = some ⟨.stat ex_path, -1⟩ := rfl
    rw [k1] at h4
    simpa using h4
  subst hrs
  exact ⟨m1, w1, evs, hs, ht, k1, k2, f1, f2, f3, f4, f5⟩

/-- C6: for every context and world, `mcdb_makefn_cleanup` returns -1 and
leaves the descriptor field at -1 and the temp-path field at NULL; a second
Cleanup on the result returns -1 and leaves the context and the whole world,
call trace included, unchanged: it makes no `unlink`, no `close` and no
release call. -/
theorem cleanup_clears_and_is_idempotent (m : mcdb_make) (o o2 : CleanupChoices)
    (w : World) :
    (mcdb_makefn_cleanup m o w).1 = -1
    ∧ (mcdb_makefn_cleanup m o w).2.1.fd = -1
    ∧ (mcdb_makefn_cleanup m o w).2.1.fntmp = none
    ∧ mcdb_makefn_cleanup (mcdb_makefn_cleanup m o w).2.1 o2 (mcdb_makefn_cleanup m o w).2.2
        = (-1, (mcdb_makefn_cleanup m o w).2.1, (mcdb_makefn_cleanup m o w).2.2) :=
  ⟨rfl, cleanup_fd m o w, cleanup_fntmp m o w,
    cleanup_of_empty _ o2 _ (cleanup_fd m o w) (cleanup_fntmp m o w)⟩

/-- C7: for every context, every non-zero `errno` on entry and every outcome
of the `unlink`, `close` and release calls made inside (each of which may
overwrite `errno`), `errno` after `mcdb_makefn_cleanup` is the value on
entry. -/
theorem cleanup_restores_errno (m : mcdb_make) (o : CleanupChoices) (w : World)
    (he : w.errno ≠ 0) :
    (mcdb_makefn_cleanup m o w).2.2.errno = w.errno := by
  simp [mcdb_makefn_cleanup, he]

theorem cleanup_restores_errno_witness :
    (mcdb_makefn_cleanup ex_ctx ex_cleanup_ok ex_world_err).2.2.errno = ex_world_err.errno :=
  cleanup_restores_errno ex_ctx ex_cleanup_ok ex_world_err (by decide)

/-- C8, counterexample: Start on `"x"` in the empty environment followed by a
successful Finish reaches a context whose descriptor field is -1 while its
temp-path field still points to the path buffer, so "the descriptor is -1 if
and only if the temp path is NULL" fails there. -/
theorem installed_ctx_breaks_pairing :
    Reachable ex_cfg ex_world ex_finished.2.1 ex_finished.2.2
    ∧ ex_finished.2.1.fd = -1 ∧ ex_finished.2.1.fntmp = some ⟨7, 0⟩
    ∧ ¬ (ex_finished.2.1.fd = -1 ↔ ex_finished.2.1.fntmp = none) :=
  ⟨Reachable.finish _ _ true ex_finish_ok
      (Reachable.start ex_ctx ex_path 11 12 ex_start_ok _ _ _ ex_started_eq),
    by decide, by decide, by decide⟩

/-- C8, amended: in every state reachable by `mcdb_makefn_start` followed by
any sequence of `mcdb_makefn_finish` and `mcdb_makefn_cleanup` calls, under
any outcomes of the underlying calls, a NULL temp-path field implies that the
descriptor field is -1; and the descriptor field is -1 with a non-NULL
temp-path field only when a `rename` has succeeded since Start began (a
successful Finish, after which the path buffer is held until Cleanup). -/
theorem reachable_ctx_pairing (cfg : Config) (w0 : World) (m : mcdb_make) (w : World)
    (h : Reachable cfg w0 m w) :
    ∃ evs, w.trace = w0.trace ++ evs
      ∧ (m.fntmp = none → m.fd = -1)
      ∧ (m.fd = -1 → m.fntmp ≠ none →
          ∃ old new, (⟨Call.rename old new, 0⟩ : Event) ∈ evs) := by
  induction h with
  | start m fname fm ff o r m1 w1 hs =>
    obtain ⟨hctx, evs, ht⟩ := start_ctx cfg m fname fm ff o w0 r m1 w1 hs
    refine ⟨evs, ht, ?_⟩
    rcases hctx with ⟨h1, h2⟩ | ⟨h1, h2⟩
    · exact ⟨fun _ => h1, fun _ h => absurd h2 h⟩
    · exact ⟨fun h => absurd h h2, fun h _ => by omega⟩
  | finish m w ds fo _ ih =>
    obtain ⟨evs0, ht0, ih1, ih2⟩ := ih
    rcases finish_spec m ds fo w with
      ⟨w2, evs, hf, -, -, -, -, ht, -⟩ | ⟨w2, hf, -, -, -, hl, ht, -⟩ |
      ⟨w2, ino, o', n', i', hf, hl, -, -, -, -, -, -, -, -, -, ht⟩
    · rw [hf]
      refine ⟨evs0 ++ evs, by simp only [ht, ht0, List.append_assoc], ih1, fun h1 h2 => ?_⟩
      obtain ⟨old, new, hmem⟩ := ih2 h1 h2
      exact ⟨old, new, List.mem_append_left _ hmem⟩
    · rw [hf]
      have hge := lookupFd_nonneg w m.fd hl
      refine ⟨evs0 ++ ⟨.fchmod m.fd m.st_mode, 0⟩
          :: ((if ds then [⟨.fdatasync m.fd, 0⟩] else [])
            ++ [⟨.close m.fd, 0⟩, ⟨.rename m.fntmp m.fname, -1⟩]),
        by simp only [ht, ht0, List.append_assoc], fun h => ?_, fun h => ?_⟩
      · have := ih1 h; omega
      · simp at h
    · rw [hf]
      refine ⟨evs0 ++ ⟨.fchmod m.fd m.st_mode, 0⟩
          :: ((if ds then [⟨.fdatasync m.fd, 0⟩] else [])
            ++ [⟨.close m.fd, 0⟩, ⟨.rename m.fntmp m.fname, 0⟩]),
        by simp only [ht, ht0, List.append_assoc], fun _ => rfl,
        fun _ _ => ⟨m.fntmp, m.fname, ?_⟩⟩
      cases ds <;> simp
  | cleanup m w co _ ih =>
    obtain ⟨evs0, ht0, -⟩ := ih
    obtain ⟨evs, ht⟩ := cleanup_trace m co w
    exact ⟨evs0 ++ evs, by rw [ht, ht0, List.append_assoc],
      fun _ => cleanup_fd m co w, fun _ h => absurd (cleanup_fntmp m co w) h⟩

theorem reachable_ctx_pairing_witness :
    ∃ evs, ex_finished.2.2.trace = ex_world.trace ++ evs
      ∧ (ex_finished.2.1.fntmp = none → ex_finished.2.1.fd = -1)
      ∧ (ex_finished.2.1.fd = -1 → ex_finished.2.1.fntmp ≠ none →
          ∃ old new, (⟨Call.rename old new, 0⟩ : Event) ∈ evs) :=
  reachable_ctx_pairing ex_cfg ex_world ex_finished.2.1 ex_finished.2.2
    (Reachable.finish _ _ true ex_finish_ok
      (Reachable.start ex_ctx ex_path 11 12 ex_start_ok _ _ _ ex_started_eq))

/-- C9, the code at the failing input: Start on `"x"` in the empty
environment, where the allocation succeeds, `mkstemp` fails with error 13 and
the injected release function leaves 22 in `errno`, returns -1 with `errno`
22; with a release function that leaves `errno` alone the same call returns
with `errno` 13. -/
theorem start_release_overwrites_errno :
    mcdb_makefn_start ex_cfg ex_ctx ex_path 11 12 ex_start_clobber ex_world
      = some ex_clobbered
    ∧ ex_clobbered.1 = -1
    ∧ ex_clobbered.2.2.errno = 22
    ∧ ex_clobbered.2.2.trace
        = [⟨.stat ex_path, -1⟩, ⟨.malloc 11 11 (some ⟨7, 0⟩), 0⟩,
            ⟨.memcpy ⟨7, 0⟩ [120], 0⟩,
            ⟨.memcpy ⟨7, 1⟩ [46, 88, 88, 88, 88, 88, 88, 0], 0⟩,
            ⟨.memcpy ⟨7, 9⟩ [120, 0], 0⟩,
            ⟨.mkstemp (some ⟨7, 0⟩), -1⟩, ⟨.free 12 (some ⟨7, 0⟩), 0⟩]
    ∧ (mcdb_makefn_start ex_cfg ex_ctx ex_path 11 12
          { ex_start_clobber with free_errno := none } ex_world).map (fun x => x.2.2.errno)
        = some 13 :=
  ⟨by rfl, by decide, by decide, by decide, by decide⟩

/-- C10: after a successful `mcdb_makefn_start` and a successful
`mcdb_makefn_finish` the context still holds the path buffer (temp-path field
non-NULL, buffer live, descriptor field -1) and the final path names the
file Start created under the temp name.  A following `mcdb_makefn_cleanup`
returns -1, makes exactly one call, the release of the path buffer through
the release function given to Start (no `unlink`, no `close`), leaves names,
inodes and open descriptors untouched, and the buffer is no longer live.
Over the three calls the allocator and release calls are exactly one
allocation and one release of that buffer, and there is no `unlink`. -/
theorem cleanup_after_install (cfg : Config) (m : mcdb_make) (fname : List Byte)
    (fm ff : Nat) (o : StartChoices) (w : World) (m1 : mcdb_make) (w1 : World)
    (datasync : Bool) (fo : FinishChoices) (m2 : mcdb_make) (w2 : World)
    (co : CleanupChoices)
    (hstart : mcdb_makefn_start cfg m fname fm ff o w = some (0, m1, w1))
    (hfin : mcdb_makefn_finish m1 datasync fo w1 = (0, m2, w2)) :
    ∃ (b ino : Nat) (tmp : Path) (evs : List Event),
      m2.fntmp = some ⟨b, 0⟩ ∧ m2.fd = -1 ∧ m2.fn_free = ff ∧ w2.heap b ≠ none
      ∧ readCStr w1.heap m1.fntmp = some tmp ∧ w1.names tmp = some ino
      ∧ readCStr w1.heap m1.fname = some (c_string fname)
      ∧ w2.names (c_string fname) = some ino
      ∧ (mcdb_makefn_cleanup m2 co w2).1 = -1
      ∧ (mcdb_makefn_cleanup m2 co w2).2.2.trace
          = w2.trace ++ [⟨.free ff (some ⟨b, 0⟩), 0⟩]
      ∧ (mcdb_makefn_cleanup m2 co w2).2.2.names = w2.names
      ∧ (mcdb_makefn_cleanup m2 co w2).2.2.inodes = w2.inodes
      ∧ (mcdb_makefn_cleanup m2 co w2).2.2.fds = w2.fds
      ∧ (mcdb_makefn_cleanup m2 co w2).2.2.heap b = none
      ∧ (mcdb_makefn_cleanup m2 co w2).2.2.trace = w.trace ++ evs
      ∧ evs.filter Event.is_heap_call
          = [⟨.malloc fm (2 * (c_string fname).length + 9) (some ⟨b, 0⟩), 0⟩,
             ⟨.free ff (some ⟨b, 0⟩), 0⟩]
      ∧ evs.filter Event.is_unlink = [] := by
  obtain ⟨b, fd, ino, sfx, st, rs, -, -, -, S⟩ :=
    start_success_inv cfg m fname fm ff o w _ _ _ hstart rfl
  have hp := started_paths S
  have hctx := S.ctx
  have hpm : m1.fntmp = some ⟨b, 0⟩ := by rw [hctx]
  have hffm : m1.fn_free = ff := by rw [hctx]
  have hn1 : w1.names (c_string fname ++ 46 :: sfx) = some ino := by rw [S.names]; simp
  have hh1 : w1.heap b ≠ none := by rw [S.heap]; simp
  rcases finish_spec m1 datasync fo w1 with
    ⟨wf, evs, hf, -⟩ | ⟨wf, hf, -⟩ |
    ⟨wf, ino', o', n', i', hf, -, hhf, -, -, ho, hn, hio, hin, -, -, htf⟩
  · rw [hf] at hfin; simp at hfin
  · rw [hf] at hfin; simp at hfin
  · rw [hf] at hfin
    simp only [Prod.mk.injEq, true_and] at hfin
    obtain ⟨rfl, rfl⟩ := hfin
    rw [hp.1] at ho
    rw [hp.2] at hn
    cases ho
    cases hn
    rw [hn1] at hio
    cases hio
    obtain ⟨w3, hcl, ht3, hn3, hi3, hf3, hh3⟩ :=
      cleanup_installed { m1 with fd := -1 } co wf ⟨b, 0⟩ hpm rfl
    rw [hcl]
    refine ⟨b, ino, c_string fname ++ 46 :: sfx,
      (⟨.stat (c_string fname), rs⟩
        :: ⟨.malloc fm (2 * (c_string fname).length + 9) (some ⟨b, 0⟩), 0⟩
        :: copy_events b (c_string fname)
        ++ umask_before cfg w.umask ++ [⟨.mkstemp (some ⟨b, 0⟩), (fd : Int)⟩]
        ++ umask_after cfg w.umask)
      ++ (⟨.fchmod m1.fd m1.st_mode, 0⟩
          :: ((if datasync then [⟨.fdatasync m1.fd, 0⟩] else [])
            ++ [⟨.close m1.fd, 0⟩, ⟨.rename m1.fntmp m1.fname, 0⟩]))
      ++ [⟨.free ff (some ⟨b, 0⟩), 0⟩],
      hpm, rfl, hffm, by rw [hhf]; exact hh1, hp.1, hn1, hp.2, hin, rfl,
      by rw [ht3]; simp [hffm], hn3, hi3, hf3, by simp [hh3], ?_, ?_, ?_⟩
    · show w3.trace = _
      rw [ht3, htf, S.calls]
      simp [hffm]
    · cases hg : cfg.old_glibc <;> cases datasync <;>
        simp [List.filter_cons, Event.is_heap_call, copy_events, umask_before,
          umask_after, hg]
    · cases hg : cfg.old_glibc <;> cases datasync <;>
        simp [List.filter_cons, Event.is_unlink, copy_events, umask_before,
          umask_after, hg]

theorem cleanup_after_install_witness :
    ∃ (b ino : Nat) (tmp : Path) (evs : List Event),
      ex_finished.2.1.fntmp = some ⟨b, 0⟩ ∧ ex_finished.2.1.fd = -1
      ∧ ex_finished.2.1.fn_free = 12 ∧ ex_finished.2.2.heap b ≠ none
      ∧ readCStr ex_started.2.2.heap ex_started.2.1.fntmp = some tmp
      ∧ ex_started.2.2.names tmp = some ino
      ∧ readCStr ex_started.2.2.heap ex_started.2.1.fname = some (c_string ex_path)
      ∧ ex_finished.2.2.names (c_string ex_path) = some ino
      ∧ (mcdb_makefn_cleanup ex_finished.2.1 ex_cleanup_ok ex_finished.2.2).1 = -1
      ∧ (mcdb_makefn_cleanup ex_finished.2.1 ex_cleanup_ok ex_finished.2.2).2.2.trace
          = ex_finished.2.2.trace ++ [⟨.free 12 (some ⟨b, 0⟩), 0⟩]
      ∧ (mcdb_makefn_cleanup ex_finished.2.1 ex_cleanup_ok ex_finished.2.2).2.2.names
          = ex_finished.2.2.names
      ∧ (mcdb_makefn_cleanup ex_finished.2.1 ex_cleanup_ok ex_finished.2.2).2.2.inodes
          = ex_finished.2.2.inodes
      ∧ (mcdb_makefn_cleanup ex_finished.2.1 ex_cleanup_ok ex_finished.2.2).2.2.fds
          = ex_finished.2.2.fds
      ∧ (mcdb_makefn_cleanup ex_finished.2.1 ex_cleanup_ok ex_finished.2.2).2.2.heap b = none
      ∧ (mcdb_makefn_cleanup ex_finished.2.1 ex_cleanup_ok ex_finished.2.2).2.2.trace
          = ex_world.trace ++ evs
      ∧ evs.filter Event.is_heap_call
          = [⟨.malloc 11 (2 * (c_string ex_path).length + 9) (some ⟨b, 0⟩), 0⟩,
             ⟨.free 12 (some ⟨b, 0⟩), 0⟩]
      ∧ evs.filter Event.is_unlink = [] :=
  cleanup_after_install ex_cfg ex_ctx ex_path 11 12 ex_start_ok ex_world ex_started.2.1
    ex_started.2.2 true ex_finish_ok ex_finished.2.1 ex_finished.2.2 ex_cleanup_ok
    (ex_started_eq.trans (congrArg some ex_started_zero.symm)) (by rfl)

end Mcdb
